import Mathlib

/-
Verification development for the SILT image-pyramid / tile-cache core.

The Python sources modelled here are:
  * scripts/processing_example/blkflt.py        (block_filter)
  * silt/src/silt/pyramid_preprocessing.py      (generate_pyramid, block_filter_to_pyramid)
  * silt/src/silt/view_widget.py                (update_image_window, _calculate_crop,
                                                 _collect_processing_tiles,
                                                 _compute_new_image_levels, _gamma_correct,
                                                 _rescale_to_8_bit, _get_pad,
                                                 _calculate_auto_image_levels)

Modelling conventions:
  * Pixel values, rectangle coordinates and tone levels are rationals (exact
    arithmetic standing in for IEEE floats).
  * scipy.ndimage.gaussian_filter with a given sigma and radius is a separable
    correlation with a fixed 1-D kernel of half-width `radius` (the truncated,
    normalised Gaussian) in mode "reflect".  The kernel weights are abstracted
    into a parameter `w : Int -> Rat`; theorems quantify over `w`, and concrete
    instances use rational weights that are exact truncated Gaussians for some
    sigma (for radius 1, weights (1/4, 1/2, 1/4) arise from
    sigma = 1/sqrt(2 ln 2)).  The 2-D filter is the double correlation sum,
    which is what the sequential axis-by-axis 1-D passes compute.
  * numpy basic slicing clips slice bounds at the array extent; Python `//`
    is floor division (Int.ediv for positive divisors); Python int() truncates
    toward zero; numpy uint8 casting truncates (floor on the clipped,
    non-negative values that occur here).
-/

namespace SILT

/-- scipy.ndimage boundary mode "reflect" for an axis of length `H`:
the array is extended as (d c b a | a b c d | d c b a), i.e. the extension is
periodic with period `2*H`, with the second half reversed.  Total over `Int`. -/
def reflect (H : ℕ) (x : ℤ) : ℕ :=
  let r := x % (2 * (H : ℤ))
  if r < H then r.toNat else (2 * H - 1 - r).toNat

theorem reflect_in_range (H : ℕ) (x : ℤ) (h0 : 0 ≤ x) (h1 : x < H) :
    reflect H x = x.toNat := by
  have hmod : x % (2 * (H : ℤ)) = x := Int.emod_eq_of_lt h0 (by omega)
  simp only [reflect, hmod]
  rw [if_pos (by omega)]

theorem reflect_neg_single (H : ℕ) (x : ℤ) (h0 : -H ≤ x) (h1 : x < 0) :
    reflect H x = (-x - 1).toNat := by
  have hH : 0 < (H : ℤ) := by omega
  have e : (x + 2 * (H : ℤ) * 1) % (2 * (H : ℤ)) = x % (2 * (H : ℤ)) :=
    Int.add_mul_emod_self_left x (2 * (H : ℤ)) 1
  have e2 : (x + 2 * (H : ℤ)) % (2 * (H : ℤ)) = x + 2 * (H : ℤ) :=
    Int.emod_eq_of_lt (by omega) (by omega)
  have hmod : x % (2 * (H : ℤ)) = x + 2 * (H : ℤ) := by
    rw [mul_one] at e
    omega
  simp only [reflect, hmod]
  rw [if_neg (by omega)]
  congr 1
  omega

theorem reflect_over_single (H : ℕ) (x : ℤ) (h0 : H ≤ x) (h1 : x < 2 * H) :
    reflect H x = (2 * H - 1 - x).toNat := by
  have hmod : x % (2 * (H : ℤ)) = x := Int.emod_eq_of_lt (by omega) (by omega)
  simp only [reflect, hmod]
  rw [if_neg (by omega)]

/-- The kernel offsets `-r, ..., r` of a 1-D correlation kernel of
half-width (radius) `r`. -/
def kernel_offsets (r : ℕ) : List ℤ :=
  (List.range (2 * r + 1)).map (fun n : ℕ => (n : ℤ) - r)

theorem mem_kernel_offsets (r : ℕ) (d : ℤ) :
    d ∈ kernel_offsets r ↔ -(r : ℤ) ≤ d ∧ d ≤ r := by
  unfold kernel_offsets
  rw [List.mem_map]
  constructor
  · rintro ⟨n, hn, rfl⟩
    rw [List.mem_range] at hn
    omega
  · intro h
    exact ⟨(d + r).toNat, List.mem_range.mpr (by omega), by omega⟩

/-- Model of scipy.ndimage.gaussian_filter on a 2-D array of shape `M x N`
(values given by `img` on `[0,M) x [0,N)`), with 1-D kernel weights `w`
supported on `[-r, r]` and boundary mode "reflect".  The separable
axis-by-axis 1-D passes compute exactly this double correlation sum. -/
def gaussian_filter (w : ℤ → ℚ) (r : ℕ) (M N : ℕ) (img : ℕ → ℕ → ℚ) :
    ℕ → ℕ → ℚ := fun i j =>
  ((kernel_offsets r).map (fun di =>
    ((kernel_offsets r).map (fun dj =>
      w di * w dj * img (reflect M ((i : ℤ) + di)) (reflect N ((j : ℤ) + dj)))).sum)).sum

/-- Block start of the block containing index `i` (the loop
`for row in range(0, M, blocksize)` visits exactly the multiples of
`blocksize` below `M`; index `i` lies in the block starting at
`blocksize * (i / blocksize)`). -/
def block_start (B i : ℕ) : ℕ := B * (i / B)

/-- Low-side halo of blkflt.py / pyramid_preprocessing.py:
`m_low = n + min(row - n, 0)` (Python ints; equals `min row n`). -/
def halo_low (r row : ℕ) : ℤ := (r : ℤ) + min ((row : ℤ) - r) 0

/-- High-side halo as computed by the code:
`m_hgh = max(min(M - (row + blocksize + n), n), 0)`. -/
def halo_high_code (r B M row : ℕ) : ℤ :=
  max (min ((M : ℤ) - ((row : ℤ) + B + r)) r) 0

/-- `block_filter` from blkflt.py, written per output pixel: the loop writes
`output[row : row+blocksize, col : col+blocksize]` once per block, so the
output pixel `(i, j)` is produced by the block starting at
`(B*(i/B), B*(j/B))`; it is entry `(m_low + (i - row), n_low + (j - col))`
of the filtered window `image[row-m_low : row+B+m_hgh, col-n_low : col+B+n_hgh]`
(numpy clips the upper slice bounds at `M`, `N`). -/
def block_filter (w : ℤ → ℚ) (r B M N : ℕ) (img : ℕ → ℕ → ℚ) :
    ℕ → ℕ → ℚ := fun i j =>
  let row := block_start B i
  let col := block_start B j
  let mlo := halo_low r row
  let mhi := halo_high_code r B M row
  let nlo := halo_low r col
  let nhi := halo_high_code r B N col
  let rlo : ℕ := ((row : ℤ) - mlo).toNat
  let rhi : ℕ := (min ((row : ℤ) + B + mhi) M).toNat
  let clo : ℕ := ((col : ℤ) - nlo).toNat
  let chi : ℕ := (min ((col : ℤ) + B + nhi) N).toNat
  gaussian_filter w r (rhi - rlo) (chi - clo)
    (fun a b => img (rlo + a) (clo + b))
    (mlo + ((i : ℤ) - row)).toNat (nlo + ((j : ℤ) - col)).toNat

/-- Modelled from the spec: the Block Filter contract of spec section 4.1
prescribes clipped halo amounts "min(radius, distance to that edge)" on every
side; this is the block filter with that high-side halo
(`min (M - (row + B)) r`, truncated subtraction), which differs from
`halo_high_code` whenever `0 < M - (row + B) < 2*r`. -/
def block_filter_spec (w : ℤ → ℚ) (r B M N : ℕ) (img : ℕ → ℕ → ℚ) :
    ℕ → ℕ → ℚ := fun i j =>
  let row := block_start B i
  let col := block_start B j
  let mlo : ℕ := min row r
  let mhi : ℕ := min (M - (row + B)) r
  let nlo : ℕ := min col r
  let nhi : ℕ := min (N - (col + B)) r
  let rlo : ℕ := row - mlo
  let rhi : ℕ := min (row + B + mhi) M
  let clo : ℕ := col - nlo
  let chi : ℕ := min (col + B + nhi) N
  gaussian_filter w r (rhi - rlo) (chi - clo)
    (fun a b => img (rlo + a) (clo + b))
    (mlo + (i - row)) (nlo + (j - col))

/-- Per-axis compatibility of windowed "reflect" filtering with whole-image
"reflect" filtering, for the spec's clipped halos `min(radius, distance to
edge)`: reading the filter window of the block containing `i` at kernel
offset `di` (with "reflect" handling relative to the window) hits exactly
the pixel that whole-image filtering reads at offset `di` from `i`. -/
theorem spec_axis_reflect (B r M i row mlo mhi T E : ℕ) (di : ℤ)
    (hB : 1 ≤ B) (hi : i < M)
    (hrow : row = B * (i / B))
    (hmlo : mlo = min row r) (hmhi : mhi = min (M - (row + B)) r)
    (hT : T = row - mlo) (hE : E = min (row + B + mhi) M)
    (h1 : -(r : ℤ) ≤ di) (h2 : di ≤ r) :
    T + reflect (E - T) (((mlo + (i - row) : ℕ) : ℤ) + di) =
      reflect M ((i : ℤ) + di) := by
  have hble : row ≤ i ∧ i < row + B := by
    have h := Nat.mod_add_div i B
    have h2 := Nat.mod_lt i (show 0 < B by omega)
    omega
  by_cases htriv : T = 0 ∧ E = M
  · obtain ⟨hT0, hEM⟩ := htriv
    have harg : ((mlo + (i - row) : ℕ) : ℤ) + di = (i : ℤ) + di := by omega
    rw [hT0, hEM, harg, Nat.sub_zero, Nat.zero_add]
  · by_cases hneg : (i : ℤ) + di < T
    · -- access to the left of the window start: forces T = 0, window ends
      -- before the image does, both reflections are single and agree
      have hT0 : T = 0 := by omega
      have hmhir : mhi = r := by omega
      have hErr : E = row + B + r := by omega
      have harg : ((mlo + (i - row) : ℕ) : ℤ) + di = (i : ℤ) + di := by omega
      rw [hT0, harg, Nat.sub_zero, Nat.zero_add]
      rw [reflect_neg_single E ((i : ℤ) + di) (by omega) (by omega)]
      rw [reflect_neg_single M ((i : ℤ) + di) (by omega) (by omega)]
    · by_cases hin : (i : ℤ) + di < T + (E - T)
      · -- access inside the window: both sides read pixel i + di directly
        have harg : ((mlo + (i - row) : ℕ) : ℤ) + di = ((i : ℤ) + di) - T := by
          omega
        rw [harg]
        rw [reflect_in_range (E - T) (((i : ℤ) + di) - T) (by omega) (by omega)]
        rw [reflect_in_range M ((i : ℤ) + di) (by omega) (by omega)]
        omega
      · -- access past the window stop: forces the window to end at the image
        -- edge; single reflection about the shared boundary on both sides
        have hEM : E = M := by omega
        have hTpos : 0 < T := by
          rcases Nat.eq_zero_or_pos T with h | h
          · exact absurd ⟨h, hEM⟩ htriv
          · exact h
        have hmlor : mlo = r := by omega
        have harg : ((mlo + (i - row) : ℕ) : ℤ) + di = ((i : ℤ) + di) - T := by
          omega
        rw [harg]
        rw [reflect_over_single (E - T) (((i : ℤ) + di) - T) (by omega) (by omega)]
        rw [reflect_over_single M ((i : ℤ) + di) (by omega) (by omega)]
        omega

/-- The Block Filter contract of spec section 4.1 holds for the spec's own
halo arithmetic: with clipped halos `min(radius, distance to edge)`, filtering
any block of any image with any kernel of half-width `radius` and cropping the
halo off agrees exactly, at every pixel of the image, with filtering the whole
image in one call.  (No divisibility of the image size by the blocksize is
required, and the kernel weights are arbitrary.) -/
theorem block_filter_spec_eq_gaussian_filter (w : ℤ → ℚ) (r B M N : ℕ)
    (img : ℕ → ℕ → ℚ) (hB : 1 ≤ B) (i j : ℕ) (hi : i < M) (hj : j < N) :
    block_filter_spec w r B M N img i j = gaussian_filter w r M N img i j := by
  simp only [block_filter_spec, gaussian_filter]
  refine congrArg List.sum (List.map_congr_left ?_)
  intro di hdi
  refine congrArg List.sum (List.map_congr_left ?_)
  intro dj hdj
  rw [mem_kernel_offsets] at hdi hdj
  congr 1
  rw [spec_axis_reflect B r M i (block_start B i) _ _ _ _ di hB hi rfl rfl rfl
    rfl rfl hdi.1 hdi.2]
  rw [spec_axis_reflect B r N j (block_start B j) _ _ _ _ dj hB hj rfl rfl rfl
    rfl rfl hdj.1 hdj.2]

/-- When the distance from the end of the block containing `i` to the image
edge is not strictly between 0 and `2*radius`, the code's high-side halo
agrees with the spec's, and the code's block filter computes the same window
as the spec's block filter. -/
theorem block_filter_eq_spec_of_far (w : ℤ → ℚ) (r B M N : ℕ)
    (img : ℕ → ℕ → ℚ) (i j : ℕ)
    (hM : M ≤ block_start B i + B ∨ block_start B i + B + 2 * r ≤ M)
    (hN : N ≤ block_start B j + B ∨ block_start B j + B + 2 * r ≤ N) :
    block_filter w r B M N img i j = block_filter_spec w r B M N img i j := by
  simp only [block_filter, block_filter_spec]
  have e1 : ((block_start B i : ℤ) - halo_low r (block_start B i)).toNat =
      block_start B i - min (block_start B i) r := by
    unfold halo_low
    omega
  have e2 : (min ((block_start B i : ℤ) + B +
      halo_high_code r B M (block_start B i)) M).toNat =
      min (block_start B i + B + min (M - (block_start B i + B)) r) M := by
    unfold halo_high_code
    omega
  have e3 : ((block_start B j : ℤ) - halo_low r (block_start B j)).toNat =
      block_start B j - min (block_start B j) r := by
    unfold halo_low
    omega
  have e4 : (min ((block_start B j : ℤ) + B +
      halo_high_code r B N (block_start B j)) N).toNat =
      min (block_start B j + B + min (N - (block_start B j + B)) r) N := by
    unfold halo_high_code
    omega
  have e5 : (halo_low r (block_start B i) + ((i : ℤ) - block_start B i)).toNat =
      min (block_start B i) r + (i - block_start B i) := by
    unfold halo_low
    have := Nat.div_mul_le_self i B
    have : block_start B i ≤ i := by
      unfold block_start
      rw [Nat.mul_comm]
      exact Nat.div_mul_le_self i B
    omega
  have e6 : (halo_low r (block_start B j) + ((j : ℤ) - block_start B j)).toNat =
      min (block_start B j) r + (j - block_start B j) := by
    unfold halo_low
    have : block_start B j ≤ j := by
      unfold block_start
      rw [Nat.mul_comm]
      exact Nat.div_mul_le_self j B
    omega
  rw [e1, e2, e3, e4, e5, e6]

/-- The code's block filter DOES agree with whole-image filtering at every
pixel whose block ends either at most 0 or at least `2*radius` pixels away
from each image edge — the halo slip of `halo_high_code` is observable only
when that distance falls strictly between 0 and `2*radius` (in particular it
is invisible whenever the blocksize divides the image dimensions, as in
blkflt_example.py's 512/64 configuration). -/
theorem block_filter_eq_gaussian_of_far (w : ℤ → ℚ) (r B M N : ℕ)
    (img : ℕ → ℕ → ℚ) (hB : 1 ≤ B) (i j : ℕ) (hi : i < M) (hj : j < N)
    (hM : M ≤ block_start B i + B ∨ block_start B i + B + 2 * r ≤ M)
    (hN : N ≤ block_start B j + B ∨ block_start B j + B + 2 * r ≤ N) :
    block_filter w r B M N img i j = gaussian_filter w r M N img i j := by
  rw [block_filter_eq_spec_of_far w r B M N img i j hM hN]
  exact block_filter_spec_eq_gaussian_filter w r B M N img hB i j hi hj

/-- Kernel weights (1/4, 1/2, 1/4): the exact normalised truncated Gaussian
of radius 1 for sigma = 1/sqrt(2 ln 2), since there exp(-1/(2 sigma^2)) = 1/2. -/
def gauss_w_half : ℤ → ℚ := fun d => if d = 0 then 1/2 else 1/4

/-- A 3x1 image whose single column holds the values 0, 0, 1. -/
def img_col001 : ℕ → ℕ → ℚ := fun i _ => if i = 2 then 1 else 0

/-- C1: evaluation of the code at the failing input.  On the 3x1 image
(0,0,1) with blocksize 1 and radius 1 and the radius-1 Gaussian kernel for
sigma = 1/sqrt(2 ln 2) (weights exactly (1/4, 1/2, 1/4)), the code's
`block_filter` yields 0 at pixel (1,0) while filtering the whole image in a
single call yields 1/4 there — a difference of 0.25, far beyond floating
tolerance — because the code's high-side halo
`max(min(M - (row + blocksize + radius), radius), 0)` leaves the read window
one row short of the halo `min(radius, distance to edge)` that the spec
prescribes; with the spec's halo the block filter does reproduce the
full-image value 1/4. -/
theorem c1_block_filter_code_diverges_from_full :
    block_filter gauss_w_half 1 1 3 1 img_col001 1 0 = 0 ∧
    gaussian_filter gauss_w_half 1 3 1 img_col001 1 0 = 1/4 ∧
    block_filter gauss_w_half 1 1 3 1 img_col001 1 0 ≠
      gaussian_filter gauss_w_half 1 3 1 img_col001 1 0 ∧
    block_filter_spec gauss_w_half 1 1 3 1 img_col001 1 0 = 1/4 := by
  have h1 : block_filter gauss_w_half 1 1 3 1 img_col001 1 0 = 0 := by
    norm_num [block_filter, gaussian_filter, kernel_offsets, List.range_succ,
      gauss_w_half, img_col001, reflect, block_start, halo_low, halo_high_code]
  have h2 : gaussian_filter gauss_w_half 1 3 1 img_col001 1 0 = 1/4 := by
    norm_num [gaussian_filter, kernel_offsets, List.range_succ, gauss_w_half,
      img_col001, reflect, show Int.toNat 2 = 2 from rfl]
  have h3 : block_filter_spec gauss_w_half 1 1 3 1 img_col001 1 0 = 1/4 := by
    simp only [block_filter_spec, gaussian_filter, kernel_offsets,
      List.range_succ, block_start]
    norm_num [gauss_w_half, img_col001, reflect, show Int.toNat 2 = 2 from rfl]
  refine ⟨h1, h2, ?_, h3⟩
  rw [h1, h2]
  norm_num

/-! ### pyramid_preprocessing.py -/

/-- An h5py dataset holding an image: 2-D (`channels = none`) or 3-D
(`channels = some c`).  `data` is total; only indices below the bounds are
meaningful. -/
structure Img where
  rows : ℕ
  cols : ℕ
  channels : Option ℕ
  data : ℕ → ℕ → ℕ → ℚ

/-- Number of channel indices (a 2-D image has a single implicit channel). -/
def chan_count (im : Img) : ℕ := im.channels.getD 1

/-- All array entries, row-major (the multiset numpy's min/max range over). -/
def img_values (im : Img) : List ℚ :=
  (List.range im.rows).flatMap (fun i =>
    (List.range im.cols).flatMap (fun j =>
      (List.range (chan_count im)).map (fun c => im.data i j c)))

/-- numpy.min over all entries of the (nonempty) array. -/
def npMin (im : Img) : ℚ :=
  match img_values im with
  | [] => 0
  | v :: vs => vs.foldl min v

/-- numpy.max over all entries of the (nonempty) array. -/
def npMax (im : Img) : ℚ :=
  match img_values im with
  | [] => 0
  | v :: vs => vs.foldl max v

/-- gaussian_filter on a dataset: 2-D images are blurred directly; 3-D images
use `sigma = (sigma, sigma, 0)`, i.e. each channel plane is blurred
independently by the same 2-D kernel.  Both cases are the per-channel 2-D
filter. -/
def gaussian_filter_img (w : ℤ → ℚ) (r : ℕ) (im : Img) : Img :=
  ⟨im.rows, im.cols, im.channels,
   fun i j c => gaussian_filter w r im.rows im.cols (fun a b => im.data a b c) i j⟩

/-- Assignment `dst[r0 : r0+src.rows, c0 : c0+src.cols] = src` on an h5py
dataset (later writes override earlier ones elsewhere in the fold). -/
def write_region (dst : Img) (r0 c0 : ℕ) (src : Img) : Img :=
  ⟨dst.rows, dst.cols, dst.channels,
   fun i j c =>
     if r0 ≤ i ∧ i < r0 + src.rows ∧ c0 ≤ j ∧ j < c0 + src.cols then
       src.data (i - r0) (j - c0) c
     else dst.data i j c⟩

/-- The output extent along one axis:
`M_output = M // 2 if M % 2 == 0 else M // 2 + 1`. -/
def out_rows (M : ℕ) : ℕ := if M % 2 = 0 then M / 2 else M / 2 + 1

/-- `range(0, M, B)`: the block start offsets. -/
def block_starts (M B : ℕ) : List ℕ :=
  (List.range ((M + B - 1) / B)).map (fun k => k * B)

/-- Length of `a[::ds]` for an axis of length `a` (numpy stride slicing). -/
def stride_len (a ds : ℕ) : ℕ := (a + ds - 1) / ds

/-- Accumulator of the block loop of `block_filter_to_pyramid`: the output
dataset written so far, the running min/max over the source slices read, and
the number of blocks processed. -/
structure BftpAcc where
  target : Img
  image_min : Option ℚ
  image_max : Option ℚ
  blocks_done : ℕ

/-- The block-plus-halo source slice
`input[row - m_low : row + blocksize + m_hgh, col - n_low : col + blocksize + n_hgh]`
read by the loop body for the block starting at `(row, col)` (numpy clips the
slice bounds to the array extent). -/
def bftp_slice (input : Img) (B r : ℕ) (row col : ℕ) : Img :=
  let M := input.rows
  let N := input.cols
  let mlo := (halo_low r row).toNat
  let mhi := (halo_high_code r B M row).toNat
  let nlo := (halo_low r col).toNat
  let nhi := (halo_high_code r B N col).toNat
  let rlo := row - mlo
  let rhi := min (row + B + mhi) M
  let clo := col - nlo
  let chi := min (col + B + nhi) N
  ⟨rhi - rlo, chi - clo, input.channels,
   fun a b c => input.data (rlo + a) (clo + b) c⟩

/-- One iteration of the double block loop of `block_filter_to_pyramid`
(body for the block starting at `(row, col)`): read the block-plus-halo
slice, Gaussian-filter it, crop the halo off, subsample by `ds`, write at
the scaled offset, and fold the slice's min/max into the running min/max. -/
def bftp_step (input : Img) (B ds r : ℕ) (w : ℤ → ℚ) (acc : BftpAcc)
    (rc : ℕ × ℕ) : BftpAcc :=
  let M := input.rows
  let N := input.cols
  let row := rc.1
  let col := rc.2
  let mlo := (halo_low r row).toNat
  let mhi := (halo_high_code r B M row).toNat
  let nlo := (halo_low r col).toNat
  let nhi := (halo_high_code r B N col).toNat
  let islice : Img := bftp_slice input B r row col
  let rval := gaussian_filter_img w r islice
  let cropped : Img :=
    ⟨rval.rows - mhi - mlo, rval.cols - nhi - nlo, rval.channels,
     fun a b c => rval.data (mlo + a) (nlo + b) c⟩
  let sub : Img :=
    ⟨stride_len cropped.rows ds, stride_len cropped.cols ds, cropped.channels,
     fun a b c => cropped.data (a * ds) (b * ds) c⟩
  let target' := write_region acc.target (row / ds) (col / ds) sub
  let mn := npMin islice
  let mx := npMax islice
  let newMin : Option ℚ :=
    match acc.image_min, acc.image_max with
    | some v, some _ => some (min v mn)
    | _, _ => some mn
  let newMax : Option ℚ :=
    match acc.image_min, acc.image_max with
    | some _, some u => some (max u mx)
    | _, _ => some mx
  ⟨target', newMin, newMax, acc.blocks_done + 1⟩

/-- `block_filter_to_pyramid` from pyramid_preprocessing.py: creates the
output dataset of spatial shape `(out_rows M, out_rows N)` (zero-initialised,
as h5py does), then runs the double block loop in row-major order. -/
def block_filter_to_pyramid (input : Img) (B ds r : ℕ) (w : ℤ → ℚ) :
    BftpAcc :=
  let M := input.rows
  let N := input.cols
  let target0 : Img := ⟨out_rows M, out_rows N, input.channels, fun _ _ _ => 0⟩
  let rcs := (block_starts M B).flatMap (fun row =>
    (block_starts N B).map (fun col => (row, col)))
  rcs.foldl (bftp_step input B ds r w) ⟨target0, none, none, 0⟩

/-- `max(h5_image[image_key].shape)` — the channel extent participates for
3-D images. -/
def shape_max (im : Img) : ℕ :=
  match im.channels with
  | none => max im.rows im.cols
  | some c => max (max im.rows im.cols) c

/-- The `while length > max_length: length //= downsample; levels += 1` loop,
with explicit fuel (the loop terminates for `downsample >= 2`; the fuel
`len` always suffices then). -/
def levels_needed_aux (maxLen ds : ℕ) : ℕ → ℕ → ℕ
  | 0, _ => 0
  | fuel + 1, len =>
    if maxLen < len then levels_needed_aux maxLen ds fuel (len / ds) + 1 else 0

def levels_needed (len maxLen ds : ℕ) : ℕ := levels_needed_aux maxLen ds len len

/-- The pyramid level datasets: level 0 is the original raster; the loop
writes dataset `i+1` by filtering dataset `i` (the dataset it wrote on the
previous iteration, or the original for `i = 0`). -/
def level_img (orig : Img) (B ds r : ℕ) (w : ℤ → ℚ) : ℕ → Img
  | 0 => orig
  | k + 1 => (block_filter_to_pyramid (level_img orig B ds r w k) B ds r w).target

/-- The h5 file as the builder sees it: the original dataset, whether the
group "pyramid" exists, the level datasets `"1", "2", ...` inside it, and the
scalar attributes. -/
structure H5State where
  original : Img
  pyramid_exists : Bool
  levels : List Img
  attr_max_level : Option ℕ
  attr_image_min : Option ℚ
  attr_image_max : Option ℚ

/-- The on-disk state after `create_group("pyramid")` and the first `k`
iterations of the level loop of `generate_pyramid` (an I/O abort during the
build leaves the file in one of these states); the min/max attributes are
written at the end of the first iteration. -/
def build_state (s : H5State) (B ds r : ℕ) (w : ℤ → ℚ) (lvls k : ℕ) :
    H5State :=
  ⟨s.original, true,
   (List.range k).map (fun n => level_img s.original B ds r w (n + 1)),
   some lvls,
   if 1 ≤ k then (block_filter_to_pyramid s.original B ds r w).image_min
     else s.attr_image_min,
   if 1 ≤ k then (block_filter_to_pyramid s.original B ds r w).image_max
     else s.attr_image_max⟩

/-- Result of a `generate_pyramid` call: the final file state, whether
"Pyramid already exists" was reported, and how many blocks were processed. -/
structure GPResult where
  state : H5State
  already_reported : Bool
  blocks_processed : ℕ

def total_blocks (orig : Img) (B ds r : ℕ) (w : ℤ → ℚ) (lvls : ℕ) : ℕ :=
  ((List.range lvls).map (fun k =>
    (block_filter_to_pyramid (level_img orig B ds r w k) B ds r w).blocks_done)).sum

/-- `generate_pyramid` from pyramid_preprocessing.py.  Branch order as in the
code: compute `levels` and store `attrs["max_level"]`; if no levels are
needed, scan the raster for min/max and return; otherwise, if the group
"pyramid" already exists, log "Pyramid already exists" and return; otherwise
create the group and run the level loop. -/
def generate_pyramid (s : H5State) (B ds r maxLen : ℕ) (w : ℤ → ℚ)
    (no_pyramid : Bool) : GPResult :=
  let length := shape_max s.original
  let lvls := if no_pyramid then 0 else levels_needed length maxLen ds
  if lvls = 0 then
    ⟨⟨s.original, s.pyramid_exists, s.levels, some lvls,
      some (npMin s.original), some (npMax s.original)⟩, false, 0⟩
  else if s.pyramid_exists then
    ⟨⟨s.original, s.pyramid_exists, s.levels, some lvls,
      s.attr_image_min, s.attr_image_max⟩, true, 0⟩
  else
    ⟨build_state s B ds r w lvls lvls, false,
     total_blocks s.original B ds r w lvls⟩

theorem out_rows_eq_ceil (M : ℕ) : out_rows M = (M + 1) / 2 := by
  unfold out_rows
  split <;> omega

theorem bftp_fold_shape (input : Img) (B ds r : ℕ) (w : ℤ → ℚ) :
    ∀ (l : List (ℕ × ℕ)) (acc : BftpAcc),
      (l.foldl (bftp_step input B ds r w) acc).target.rows = acc.target.rows ∧
      (l.foldl (bftp_step input B ds r w) acc).target.cols = acc.target.cols ∧
      (l.foldl (bftp_step input B ds r w) acc).target.channels =
        acc.target.channels := by
  intro l
  induction l with
  | nil => intro acc; exact ⟨rfl, rfl, rfl⟩
  | cons rc rest ih =>
    intro acc
    simpa [bftp_step, write_region] using ih (bftp_step input B ds r w acc rc)

theorem bftp_target_shape (input : Img) (B ds r : ℕ) (w : ℤ → ℚ) :
    (block_filter_to_pyramid input B ds r w).target.rows = out_rows input.rows ∧
    (block_filter_to_pyramid input B ds r w).target.cols = out_rows input.cols ∧
    (block_filter_to_pyramid input B ds r w).target.channels = input.channels := by
  unfold block_filter_to_pyramid
  exact bftp_fold_shape input B ds r w _ _

/-- C2: `block_filter_to_pyramid` creates the output dataset with spatial
shape `(ceil(M/2), ceil(N/2))` (channels preserved for 3-D rasters); hence in
a freshly built pyramid, dataset `i+1`'s spatial shape is the ceiling-half of
dataset `i`'s shape in each spatial dimension, for even and odd dimensions
alike. -/
theorem c2_pyramid_shape_invariant :
    (∀ (input : Img) (B ds r : ℕ) (w : ℤ → ℚ),
      (block_filter_to_pyramid input B ds r w).target.rows = (input.rows + 1) / 2 ∧
      (block_filter_to_pyramid input B ds r w).target.cols = (input.cols + 1) / 2 ∧
      (block_filter_to_pyramid input B ds r w).target.channels = input.channels) ∧
    (∀ (orig : Img) (B ds r : ℕ) (w : ℤ → ℚ) (k : ℕ),
      (level_img orig B ds r w (k + 1)).rows =
        ((level_img orig B ds r w k).rows + 1) / 2 ∧
      (level_img orig B ds r w (k + 1)).cols =
        ((level_img orig B ds r w k).cols + 1) / 2) ∧
    (∀ (s : H5State) (B ds r maxLen : ℕ) (w : ℤ → ℚ) (i : ℕ)
      (hfresh : s.pyramid_exists = false) (hempty : s.levels = [])
      (h : i + 1 < (generate_pyramid s B ds r maxLen w false).state.levels.length),
      ((generate_pyramid s B ds r maxLen w false).state.levels.get ⟨i + 1, h⟩).rows =
        (((generate_pyramid s B ds r maxLen w false).state.levels.get
            ⟨i, by omega⟩).rows + 1) / 2 ∧
      ((generate_pyramid s B ds r maxLen w false).state.levels.get ⟨i + 1, h⟩).cols =
        (((generate_pyramid s B ds r maxLen w false).state.levels.get
            ⟨i, by omega⟩).cols + 1) / 2) := by
  have hshape : ∀ (input : Img) (B ds r : ℕ) (w : ℤ → ℚ),
      (block_filter_to_pyramid input B ds r w).target.rows = (input.rows + 1) / 2 ∧
      (block_filter_to_pyramid input B ds r w).target.cols = (input.cols + 1) / 2 ∧
      (block_filter_to_pyramid input B ds r w).target.channels = input.channels := by
    intro input B ds r w
    obtain ⟨h1, h2, h3⟩ := bftp_target_shape input B ds r w
    exact ⟨by rw [h1, out_rows_eq_ceil], by rw [h2, out_rows_eq_ceil], h3⟩
  have hlevel : ∀ (orig : Img) (B ds r : ℕ) (w : ℤ → ℚ) (k : ℕ),
      (level_img orig B ds r w (k + 1)).rows =
        ((level_img orig B ds r w k).rows + 1) / 2 ∧
      (level_img orig B ds r w (k + 1)).cols =
        ((level_img orig B ds r w k).cols + 1) / 2 := by
    intro orig B ds r w k
    have := hshape (level_img orig B ds r w k) B ds r w
    exact ⟨this.1, this.2.1⟩
  refine ⟨hshape, hlevel, ?_⟩
  intro s B ds r maxLen w i hfresh hempty h
  by_cases hl : levels_needed (shape_max s.original) maxLen ds = 0
  · exfalso
    simp [generate_pyramid, hl, hempty] at h
  · have hstate : (generate_pyramid s B ds r maxLen w false).state.levels =
        (List.range (levels_needed (shape_max s.original) maxLen ds)).map
          (fun n => level_img s.original B ds r w (n + 1)) := by
      simp [generate_pyramid, build_state, hl, hfresh]
    revert h
    rw [hstate]
    intro h
    have hlen := h
    rw [List.length_map, List.length_range] at hlen
    rw [List.get_eq_getElem, List.get_eq_getElem, List.getElem_map,
      List.getElem_map, List.getElem_range, List.getElem_range]
    exact hlevel s.original B ds r w (i + 1)

/-- A 5x4 zero raster in a fresh file. -/
def img_5x4 : Img := ⟨5, 4, none, fun _ _ _ => 0⟩

def s_5x4 : H5State := ⟨img_5x4, false, [], none, none, none⟩

def w_zero : ℤ → ℚ := fun _ => 0

theorem c2_pyramid_shape_invariant_witness :
    s_5x4.pyramid_exists = false ∧ s_5x4.levels = [] ∧
    (0 + 1 < (generate_pyramid s_5x4 2 2 1 1 w_zero false).state.levels.length) ∧
    ((generate_pyramid s_5x4 2 2 1 1 w_zero false).state.levels.get
        ⟨0 + 1, by decide⟩).rows =
      (((generate_pyramid s_5x4 2 2 1 1 w_zero false).state.levels.get
          ⟨0, by decide⟩).rows + 1) / 2 ∧
    ((generate_pyramid s_5x4 2 2 1 1 w_zero false).state.levels.get
        ⟨0, by decide⟩).rows = 3 ∧
    img_5x4.rows = 5 :=
  ⟨rfl, rfl, by decide,
   (c2_pyramid_shape_invariant.2.2 s_5x4 2 2 1 1 w_zero 0 rfl rfl (by decide)).1,
   by decide, rfl⟩

/-- C5: calling `generate_pyramid` a second time on the same raster path
after the first call built the pyramid is a no-op: the second call leaves the
file state (level count, shapes, contents, attributes) exactly as the first
call left it, processes zero blocks, and reports "Pyramid already exists". -/
theorem c5_generate_pyramid_idempotent (s : H5State) (B ds r maxLen : ℕ)
    (w : ℤ → ℚ) (hfresh : s.pyramid_exists = false)
    (hlvls : levels_needed (shape_max s.original) maxLen ds ≠ 0) :
    (generate_pyramid (generate_pyramid s B ds r maxLen w false).state
        B ds r maxLen w false).state =
      (generate_pyramid s B ds r maxLen w false).state ∧
    (generate_pyramid (generate_pyramid s B ds r maxLen w false).state
        B ds r maxLen w false).already_reported = true ∧
    (generate_pyramid (generate_pyramid s B ds r maxLen w false).state
        B ds r maxLen w false).blocks_processed = 0 := by
  have hone : 1 ≤ levels_needed (shape_max s.original) maxLen ds :=
    Nat.one_le_iff_ne_zero.mpr hlvls
  have h1 : (generate_pyramid s B ds r maxLen w false).state =
      build_state s B ds r w (levels_needed (shape_max s.original) maxLen ds)
        (levels_needed (shape_max s.original) maxLen ds) := by
    simp [generate_pyramid, hlvls, hfresh]
  rw [h1]
  simp [generate_pyramid, build_state, hlvls, hone]

theorem c5_generate_pyramid_idempotent_witness :
    s_5x4.pyramid_exists = false ∧
    levels_needed (shape_max s_5x4.original) 1 2 ≠ 0 ∧
    ((generate_pyramid (generate_pyramid s_5x4 2 2 1 1 w_zero false).state
        2 2 1 1 w_zero false).state =
      (generate_pyramid s_5x4 2 2 1 1 w_zero false).state ∧
    (generate_pyramid (generate_pyramid s_5x4 2 2 1 1 w_zero false).state
        2 2 1 1 w_zero false).already_reported = true ∧
    (generate_pyramid (generate_pyramid s_5x4 2 2 1 1 w_zero false).state
        2 2 1 1 w_zero false).blocks_processed = 0) :=
  ⟨rfl, by decide, c5_generate_pyramid_idempotent s_5x4 2 2 1 1 w_zero rfl (by decide)⟩

/-- A 5000x5000 raster (needs 3 pyramid levels at max_length 1024). -/
def img_5000 : Img := ⟨5000, 5000, none, fun _ _ _ => 0⟩

/-- The file state left by an I/O abort right after `create_group("pyramid")`
and before any level dataset was written: the group exists, zero of the 3
required levels are present. -/
def s_partial_5000 : H5State := ⟨img_5000, true, [], some 3, none, none⟩

/-- C6 counterexample: the presence check of `generate_pyramid` succeeds on a
partially-written pyramid.  `s_partial_5000` is exactly the state the build
loop passes through after creating the group and writing zero of its 3
levels (an abort point), and a subsequent `generate_pyramid` call on it
reports "Pyramid already exists", processes no blocks, and leaves the
pyramid with zero levels — the marker the presence check consults (the
existence of the group "pyramid") is observable before any level is
written. -/
theorem c6_presence_check_accepts_partial_pyramid :
    s_partial_5000 =
      build_state ⟨img_5000, false, [], none, none, none⟩ 4096 2 3 w_zero 3 0 ∧
    levels_needed (shape_max img_5000) 1024 2 = 3 ∧
    s_partial_5000.levels.length = 0 ∧
    (generate_pyramid s_partial_5000 4096 2 3 1024 w_zero false).already_reported
      = true ∧
    (generate_pyramid s_partial_5000 4096 2 3 1024 w_zero
        false).state.levels.length = 0 ∧
    (generate_pyramid s_partial_5000 4096 2 3 1024 w_zero
        false).blocks_processed = 0 :=
  ⟨rfl, by decide, rfl, by decide, by decide, by decide⟩

/-- C6 amended: the presence marker (existence of the group "pyramid") is
created before any level dataset is written, so an I/O abort after level
generation has started leaves a partial pyramid that IS discoverable: a
subsequent `generate_pyramid` call's presence check succeeds on any state
with the group present, whatever number of levels was actually written — it
reports "already built", processes no blocks, and does not complete the
missing levels. -/
theorem c6_marker_precedes_levels :
    (∀ (s : H5State) (B ds r : ℕ) (w : ℤ → ℚ) (lvls : ℕ),
      (build_state s B ds r w lvls 0).pyramid_exists = true ∧
      (build_state s B ds r w lvls 0).levels = []) ∧
    (∀ (s : H5State) (B ds r maxLen : ℕ) (w : ℤ → ℚ),
      s.pyramid_exists = true →
      levels_needed (shape_max s.original) maxLen ds ≠ 0 →
      (generate_pyramid s B ds r maxLen w false).already_reported = true ∧
      (generate_pyramid s B ds r maxLen w false).blocks_processed = 0 ∧
      (generate_pyramid s B ds r maxLen w false).state.levels = s.levels) := by
  constructor
  · intro s B ds r w lvls
    exact ⟨rfl, rfl⟩
  · intro s B ds r maxLen w hex hlvls
    simp [generate_pyramid, hex, hlvls]

theorem c6_marker_precedes_levels_witness :
    s_partial_5000.pyramid_exists = true ∧
    levels_needed (shape_max s_partial_5000.original) 1024 2 ≠ 0 ∧
    ((generate_pyramid s_partial_5000 4096 2 3 1024 w_zero
        false).already_reported = true ∧
    (generate_pyramid s_partial_5000 4096 2 3 1024 w_zero
        false).blocks_processed = 0 ∧
    (generate_pyramid s_partial_5000 4096 2 3 1024 w_zero
        false).state.levels = s_partial_5000.levels) :=
  ⟨rfl, by decide,
   c6_marker_precedes_levels.2 s_partial_5000 4096 2 3 1024 w_zero rfl (by decide)⟩

/-! ### Min/max over arrays and the running min/max of the block loop -/

theorem list_foldl_min_le_init (l : List ℚ) (a : ℚ) : l.foldl min a ≤ a := by
  induction l generalizing a with
  | nil => simp
  | cons x xs ih => exact le_trans (ih (min a x)) (min_le_left a x)

theorem list_foldl_min_le_mem (l : List ℚ) (a x : ℚ) (h : x ∈ l) :
    l.foldl min a ≤ x := by
  induction l generalizing a with
  | nil => cases h
  | cons y ys ih =>
    rcases List.mem_cons.mp h with rfl | hmem
    · exact le_trans (list_foldl_min_le_init ys (min a x)) (min_le_right a x)
    · exact ih (min a y) hmem

theorem list_foldl_min_mem_or (l : List ℚ) (a : ℚ) :
    l.foldl min a = a ∨ l.foldl min a ∈ l := by
  induction l generalizing a with
  | nil => exact Or.inl rfl
  | cons y ys ih =>
    rcases ih (min a y) with h | h
    · rcases min_choice a y with hm | hm
      · exact Or.inl (by rw [List.foldl_cons, h, hm])
      · exact Or.inr (by rw [List.foldl_cons, h, hm]; exact List.mem_cons_self y ys)
    · exact Or.inr (List.mem_cons_of_mem y h)

theorem list_foldl_max_init_le (l : List ℚ) (a : ℚ) : a ≤ l.foldl max a := by
  induction l generalizing a with
  | nil => simp
  | cons x xs ih => exact le_trans (le_max_left a x) (ih (max a x))

theorem list_foldl_max_mem_le (l : List ℚ) (a x : ℚ) (h : x ∈ l) :
    x ≤ l.foldl max a := by
  induction l generalizing a with
  | nil => cases h
  | cons y ys ih =>
    rcases List.mem_cons.mp h with rfl | hmem
    · exact le_trans (le_max_right a x) (list_foldl_max_init_le ys (max a x))
    · exact ih (max a y) hmem

theorem list_foldl_max_mem_or (l : List ℚ) (a : ℚ) :
    l.foldl max a = a ∨ l.foldl max a ∈ l := by
  induction l generalizing a with
  | nil => exact Or.inl rfl
  | cons y ys ih =>
    rcases ih (max a y) with h | h
    · rcases max_choice a y with hm | hm
      · exact Or.inl (by rw [List.foldl_cons, h, hm])
      · exact Or.inr (by rw [List.foldl_cons, h, hm]; exact List.mem_cons_self y ys)
    · exact Or.inr (List.mem_cons_of_mem y h)

theorem mem_img_values_of (im : Img) (i j c : ℕ) (hi : i < im.rows)
    (hj : j < im.cols) (hc : c < chan_count im) :
    im.data i j c ∈ img_values im := by
  unfold img_values
  rw [List.mem_flatMap]
  refine ⟨i, List.mem_range.mpr hi, ?_⟩
  rw [List.mem_flatMap]
  refine ⟨j, List.mem_range.mpr hj, ?_⟩
  rw [List.mem_map]
  exact ⟨c, List.mem_range.mpr hc, rfl⟩

theorem exists_of_mem_img_values (im : Img) (x : ℚ) (h : x ∈ img_values im) :
    ∃ i j c, i < im.rows ∧ j < im.cols ∧ c < chan_count im ∧
      x = im.data i j c := by
  unfold img_values at h
  rw [List.mem_flatMap] at h
  obtain ⟨i, hi, h⟩ := h
  rw [List.mem_flatMap] at h
  obtain ⟨j, hj, h⟩ := h
  rw [List.mem_map] at h
  obtain ⟨c, hc, h⟩ := h
  exact ⟨i, j, c, List.mem_range.mp hi, List.mem_range.mp hj,
    List.mem_range.mp hc, h.symm⟩

theorem npMin_of_eq (im : Img) (v : ℚ) (vs : List ℚ)
    (h : img_values im = v :: vs) : npMin im = vs.foldl min v := by
  unfold npMin
  rw [h]

theorem npMax_of_eq (im : Img) (v : ℚ) (vs : List ℚ)
    (h : img_values im = v :: vs) : npMax im = vs.foldl max v := by
  unfold npMax
  rw [h]

theorem npMin_le_val (im : Img) (i j c : ℕ) (hi : i < im.rows)
    (hj : j < im.cols) (hc : c < chan_count im) :
    npMin im ≤ im.data i j c := by
  have hmem := mem_img_values_of im i j c hi hj hc
  cases hv : img_values im with
  | nil => rw [hv] at hmem; cases hmem
  | cons v vs =>
    rw [npMin_of_eq im v vs hv]
    rw [hv] at hmem
    rcases List.mem_cons.mp hmem with h | h
    · rw [h]; exact list_foldl_min_le_init vs v
    · exact list_foldl_min_le_mem vs v _ h

theorem val_le_npMax (im : Img) (i j c : ℕ) (hi : i < im.rows)
    (hj : j < im.cols) (hc : c < chan_count im) :
    im.data i j c ≤ npMax im := by
  have hmem := mem_img_values_of im i j c hi hj hc
  cases hv : img_values im with
  | nil => rw [hv] at hmem; cases hmem
  | cons v vs =>
    rw [npMax_of_eq im v vs hv]
    rw [hv] at hmem
    rcases List.mem_cons.mp hmem with h | h
    · rw [h]; exact list_foldl_max_init_le vs v
    · exact list_foldl_max_mem_le vs v _ h

theorem npMin_attained (im : Img) (hr : 0 < im.rows) (hc : 0 < im.cols)
    (hcc : 0 < chan_count im) :
    ∃ i j c, i < im.rows ∧ j < im.cols ∧ c < chan_count im ∧
      npMin im = im.data i j c := by
  have hne := mem_img_values_of im 0 0 0 hr hc hcc
  cases hv : img_values im with
  | nil => rw [hv] at hne; cases hne
  | cons v vs =>
    rw [npMin_of_eq im v vs hv]
    have hmem : vs.foldl min v ∈ img_values im := by
      rcases list_foldl_min_mem_or vs v with h | h
      · rw [h, hv]; exact List.mem_cons_self v vs
      · rw [hv]; exact List.mem_cons_of_mem v h
    exact exists_of_mem_img_values im _ hmem

theorem npMax_attained (im : Img) (hr : 0 < im.rows) (hc : 0 < im.cols)
    (hcc : 0 < chan_count im) :
    ∃ i j c, i < im.rows ∧ j < im.cols ∧ c < chan_count im ∧
      npMax im = im.data i j c := by
  have hne := mem_img_values_of im 0 0 0 hr hc hcc
  cases hv : img_values im with
  | nil => rw [hv] at hne; cases hne
  | cons v vs =>
    rw [npMax_of_eq im v vs hv]
    have hmem : vs.foldl max v ∈ img_values im := by
      rcases list_foldl_max_mem_or vs v with h | h
      · rw [h, hv]; exact List.mem_cons_self v vs
      · rw [hv]; exact List.mem_cons_of_mem v h
    exact exists_of_mem_img_values im _ hmem

theorem halo_low_toNat (r row : ℕ) : (halo_low r row).toNat = min row r := by
  unfold halo_low
  omega

theorem halo_high_code_toNat (r B M row : ℕ) :
    (halo_high_code r B M row).toNat = min (M - (row + B + r)) r := by
  unfold halo_high_code
  omega

theorem block_start_bounds (B i : ℕ) (hB : 1 ≤ B) :
    block_start B i ≤ i ∧ i < block_start B i + B := by
  unfold block_start
  have h := Nat.mod_add_div i B
  have h2 := Nat.mod_lt i (show 0 < B by omega)
  omega

theorem mem_block_starts (M B x : ℕ) (hB : 1 ≤ B) :
    x ∈ block_starts M B ↔ ∃ k, k * B < M ∧ x = k * B := by
  unfold block_starts
  rw [List.mem_map]
  constructor
  · rintro ⟨k, hk, rfl⟩
    rw [List.mem_range] at hk
    refine ⟨k, ?_, rfl⟩
    have h1 : k + 1 ≤ (M + B - 1) / B := hk
    have h2 : (k + 1) * B ≤ ((M + B - 1) / B) * B := Nat.mul_le_mul_right B h1
    have h3 : ((M + B - 1) / B) * B ≤ M + B - 1 := Nat.div_mul_le_self _ _
    rw [add_mul, one_mul] at h2
    omega
  · rintro ⟨k, hk, rfl⟩
    refine ⟨k, List.mem_range.mpr ?_, rfl⟩
    have h1 : (k + 1) * B ≤ M + B - 1 := by
      rw [add_mul, one_mul]
      omega
    have h2 : ((k + 1) * B) / B ≤ (M + B - 1) / B := Nat.div_le_div_right h1
    rw [Nat.mul_div_cancel _ (show 0 < B by omega)] at h2
    omega

theorem block_start_mem (M B i : ℕ) (hB : 1 ≤ B) (hi : i < M) :
    block_start B i ∈ block_starts M B := by
  rw [mem_block_starts M B _ hB]
  refine ⟨i / B, ?_, ?_⟩
  · have h := (block_start_bounds B i hB).1
    unfold block_start at h
    rw [Nat.mul_comm]
    omega
  · unfold block_start
    rw [Nat.mul_comm]

theorem block_start_lt (M B i : ℕ) (hB : 1 ≤ B) (hi : i < M) :
    block_start B i < M :=
  lt_of_le_of_lt (block_start_bounds B i hB).1 hi

/-- Running minimum of the source slices, as folded by the block loop. -/
def slice_min (input : Img) (B r : ℕ) (rc : ℕ × ℕ) : ℚ :=
  npMin (bftp_slice input B r rc.1 rc.2)

/-- Running maximum of the source slices, as folded by the block loop. -/
def slice_max (input : Img) (B r : ℕ) (rc : ℕ × ℕ) : ℚ :=
  npMax (bftp_slice input B r rc.1 rc.2)

theorem bftp_slice_chan (input : Img) (B r row col : ℕ) :
    chan_count (bftp_slice input B r row col) = chan_count input := rfl

theorem bftp_slice_pos (input : Img) (B r row col : ℕ) (hB : 1 ≤ B)
    (hrow : row < input.rows) (hcol : col < input.cols) :
    0 < (bftp_slice input B r row col).rows ∧
    0 < (bftp_slice input B r row col).cols := by
  have h1 := halo_low_toNat r row
  have h2 := halo_low_toNat r col
  constructor <;> (simp only [bftp_slice]; omega)

/-- Every entry of a block-plus-halo slice is an entry of the source image. -/
theorem slice_val_in_img (input : Img) (B r row col : ℕ)
    (hrow : row < input.rows) (hcol : col < input.cols) (a b c : ℕ)
    (ha : a < (bftp_slice input B r row col).rows)
    (hb : b < (bftp_slice input B r row col).cols) :
    ∃ i j, i < input.rows ∧ j < input.cols ∧
      (bftp_slice input B r row col).data a b c = input.data i j c := by
  refine ⟨(row - (halo_low r row).toNat) + a,
          (col - (halo_low r col).toNat) + b, ?_, ?_, rfl⟩
  · simp only [bftp_slice] at ha
    omega
  · simp only [bftp_slice] at hb
    omega

/-- Every image pixel lies inside the slice of the block containing it. -/
theorem img_val_in_slice (input : Img) (B r : ℕ) (i j c : ℕ) (hB : 1 ≤ B)
    (hi : i < input.rows) (hj : j < input.cols) :
    ∃ a b,
      a < (bftp_slice input B r (block_start B i) (block_start B j)).rows ∧
      b < (bftp_slice input B r (block_start B i) (block_start B j)).cols ∧
      (bftp_slice input B r (block_start B i) (block_start B j)).data a b c =
        input.data i j c := by
  have hbi := block_start_bounds B i hB
  have hbj := block_start_bounds B j hB
  have h1 := halo_low_toNat r (block_start B i)
  have h2 := halo_low_toNat r (block_start B j)
  refine ⟨i - (block_start B i - (halo_low r (block_start B i)).toNat),
          j - (block_start B j - (halo_low r (block_start B j)).toNat),
          ?_, ?_, ?_⟩
  · simp only [bftp_slice]
    omega
  · simp only [bftp_slice]
    omega
  · simp only [bftp_slice]
    have hx : (block_start B i - (halo_low r (block_start B i)).toNat) +
        (i - (block_start B i - (halo_low r (block_start B i)).toNat)) = i := by
      omega
    have hy : (block_start B j - (halo_low r (block_start B j)).toNat) +
        (j - (block_start B j - (halo_low r (block_start B j)).toNat)) = j := by
      omega
    rw [hx, hy]

theorem bftp_step_none (input : Img) (B ds r : ℕ) (w : ℤ → ℚ) (t : Img)
    (k : ℕ) (rc : ℕ × ℕ) :
    bftp_step input B ds r w ⟨t, none, none, k⟩ rc =
      ⟨(bftp_step input B ds r w ⟨t, none, none, k⟩ rc).target,
       some (slice_min input B r rc), some (slice_max input B r rc), k + 1⟩ :=
  rfl

theorem bftp_step_some (input : Img) (B ds r : ℕ) (w : ℤ → ℚ) (t : Img)
    (v u : ℚ) (k : ℕ) (rc : ℕ × ℕ) :
    bftp_step input B ds r w ⟨t, some v, some u, k⟩ rc =
      ⟨(bftp_step input B ds r w ⟨t, some v, some u, k⟩ rc).target,
       some (min v (slice_min input B r rc)),
       some (max u (slice_max input B r rc)), k + 1⟩ :=
  rfl

theorem bftp_fold_run (input : Img) (B ds r : ℕ) (w : ℤ → ℚ) :
    ∀ (l : List (ℕ × ℕ)) (t : Img) (v u : ℚ) (k : ℕ),
      (l.foldl (bftp_step input B ds r w) ⟨t, some v, some u, k⟩).image_min =
        some (l.foldl (fun a rc => min a (slice_min input B r rc)) v) ∧
      (l.foldl (bftp_step input B ds r w) ⟨t, some v, some u, k⟩).image_max =
        some (l.foldl (fun a rc => max a (slice_max input B r rc)) u) := by
  intro l
  induction l with
  | nil => intro t v u k; exact ⟨rfl, rfl⟩
  | cons rc rest ih =>
    intro t v u k
    rw [List.foldl_cons, bftp_step_some, List.foldl_cons, List.foldl_cons]
    exact ih _ _ _ _

/-- The running min/max returned by `block_filter_to_pyramid` equal the
global min/max of the raw input raster: the block-plus-halo slices together
cover the raster, and each slice reads only raster entries. -/
theorem bftp_image_min_max (input : Img) (B ds r : ℕ) (w : ℤ → ℚ)
    (hB : 1 ≤ B) (hr : 0 < input.rows) (hc : 0 < input.cols)
    (hch : 0 < chan_count input) :
    (block_filter_to_pyramid input B ds r w).image_min = some (npMin input) ∧
    (block_filter_to_pyramid input B ds r w).image_max = some (npMax input) := by
  have hmem00 : ((0, 0) : ℕ × ℕ) ∈ (block_starts input.rows B).flatMap
      (fun row => (block_starts input.cols B).map (fun col => (row, col))) := by
    rw [List.mem_flatMap]
    refine ⟨0, ?_, List.mem_map.mpr ⟨0, ?_, rfl⟩⟩
    · have h := block_start_mem input.rows B 0 hB hr
      simpa [block_start] using h
    · have h := block_start_mem input.cols B 0 hB hc
      simpa [block_start] using h
  have hmem_rcs : ∀ rc : ℕ × ℕ, rc ∈ (block_starts input.rows B).flatMap
      (fun row => (block_starts input.cols B).map (fun col => (row, col))) ↔
      rc.1 ∈ block_starts input.rows B ∧ rc.2 ∈ block_starts input.cols B := by
    intro rc
    rw [List.mem_flatMap]
    constructor
    · rintro ⟨row, hrow, h⟩
      rw [List.mem_map] at h
      obtain ⟨col, hcol, hrc⟩ := h
      rw [← hrc]
      exact ⟨hrow, hcol⟩
    · rintro ⟨h1, h2⟩
      exact ⟨rc.1, h1, List.mem_map.mpr ⟨rc.2, h2, rfl⟩⟩
  have hrc_lt : ∀ rc : ℕ × ℕ, rc ∈ (block_starts input.rows B).flatMap
      (fun row => (block_starts input.cols B).map (fun col => (row, col))) →
      rc.1 < input.rows ∧ rc.2 < input.cols := by
    intro rc hm
    rw [hmem_rcs] at hm
    obtain ⟨k1, hk1, he1⟩ := (mem_block_starts _ _ _ hB).mp hm.1
    obtain ⟨k2, hk2, he2⟩ := (mem_block_starts _ _ _ hB).mp hm.2
    omega
  have key_min_le : ∀ rc : ℕ × ℕ, rc.1 < input.rows → rc.2 < input.cols →
      npMin input ≤ slice_min input B r rc := by
    intro rc h1 h2
    obtain ⟨hp1, hp2⟩ := bftp_slice_pos input B r rc.1 rc.2 hB h1 h2
    obtain ⟨a, b, c, ha, hb, hc2, hval⟩ :=
      npMin_attained (bftp_slice input B r rc.1 rc.2) hp1 hp2
        (by rw [bftp_slice_chan]; exact hch)
    obtain ⟨i, j, hi, hj, hv2⟩ :=
      slice_val_in_img input B r rc.1 rc.2 h1 h2 a b c ha hb
    unfold slice_min
    rw [hval, hv2]
    exact npMin_le_val input i j c hi hj
      (by rw [bftp_slice_chan] at hc2; exact hc2)
  have key_max_le : ∀ rc : ℕ × ℕ, rc.1 < input.rows → rc.2 < input.cols →
      slice_max input B r rc ≤ npMax input := by
    intro rc h1 h2
    obtain ⟨hp1, hp2⟩ := bftp_slice_pos input B r rc.1 rc.2 hB h1 h2
    obtain ⟨a, b, c, ha, hb, hc2, hval⟩ :=
      npMax_attained (bftp_slice input B r rc.1 rc.2) hp1 hp2
        (by rw [bftp_slice_chan]; exact hch)
    obtain ⟨i, j, hi, hj, hv2⟩ :=
      slice_val_in_img input B r rc.1 rc.2 h1 h2 a b c ha hb
    unfold slice_max
    rw [hval, hv2]
    exact val_le_npMax input i j c hi hj
      (by rw [bftp_slice_chan] at hc2; exact hc2)
  have key_min_ge : ∀ i j c, i < input.rows → j < input.cols →
      c < chan_count input →
      slice_min input B r (block_start B i, block_start B j) ≤
        input.data i j c := by
    intro i j c hi hj hc2
    obtain ⟨a, b, ha, hb, hval⟩ := img_val_in_slice input B r i j c hB hi hj
    unfold slice_min
    rw [← hval]
    exact npMin_le_val _ a b c ha hb (by rw [bftp_slice_chan]; exact hc2)
  have key_max_ge : ∀ i j c, i < input.rows → j < input.cols →
      c < chan_count input →
      input.data i j c ≤
        slice_max input B r (block_start B i, block_start B j) := by
    intro i j c hi hj hc2
    obtain ⟨a, b, ha, hb, hval⟩ := img_val_in_slice input B r i j c hB hi hj
    unfold slice_max
    rw [← hval]
    exact val_le_npMax _ a b c ha hb (by rw [bftp_slice_chan]; exact hc2)
  obtain ⟨rc0, rest, hrcs⟩ :=
    List.exists_cons_of_ne_nil (List.ne_nil_of_mem hmem00)
  have hrc0 := hrc_lt rc0 (by rw [hrcs]; exact List.mem_cons_self _ _)
  simp only [block_filter_to_pyramid]
  rw [hrcs, List.foldl_cons, bftp_step_none]
  obtain ⟨hmin_run, hmax_run⟩ := bftp_fold_run input B ds r w rest
    (bftp_step input B ds r w
      ⟨⟨out_rows input.rows, out_rows input.cols, input.channels,
        fun _ _ _ => 0⟩, none, none, 0⟩ rc0).target
    (slice_min input B r rc0) (slice_max input B r rc0) (0 + 1)
  rw [hmin_run, hmax_run]
  have hminv : rest.foldl (fun a rc => min a (slice_min input B r rc))
      (slice_min input B r rc0) = npMin input := by
    rw [← List.foldl_map]
    apply le_antisymm
    · obtain ⟨i, j, c, hi, hj, hc2, hval⟩ := npMin_attained input hr hc hch
      have hbm : ((block_start B i, block_start B j) : ℕ × ℕ) ∈ rc0 :: rest := by
        rw [← hrcs, hmem_rcs]
        exact ⟨block_start_mem _ _ _ hB hi, block_start_mem _ _ _ hB hj⟩
      have hfold_le : (rest.map (slice_min input B r)).foldl min
          (slice_min input B r rc0) ≤
          slice_min input B r (block_start B i, block_start B j) := by
        rcases List.mem_cons.mp hbm with heq | hm
        · rw [← heq]
          exact list_foldl_min_le_init _ _
        · exact list_foldl_min_le_mem _ _ _ (List.mem_map.mpr ⟨_, hm, rfl⟩)
      rw [hval]
      exact le_trans hfold_le (key_min_ge i j c hi hj hc2)
    · rcases list_foldl_min_mem_or (rest.map (slice_min input B r))
        (slice_min input B r rc0) with h | h
      · rw [h]
        exact key_min_le rc0 hrc0.1 hrc0.2
      · obtain ⟨rc', hm, heq⟩ := List.mem_map.mp h
        rw [← heq]
        have hlt := hrc_lt rc' (by rw [hrcs]; exact List.mem_cons_of_mem _ hm)
        exact key_min_le rc' hlt.1 hlt.2
  have hmaxv : rest.foldl (fun a rc => max a (slice_max input B r rc))
      (slice_max input B r rc0) = npMax input := by
    rw [← List.foldl_map]
    apply le_antisymm
    · rcases list_foldl_max_mem_or (rest.map (slice_max input B r))
        (slice_max input B r rc0) with h | h
      · rw [h]
        exact key_max_le rc0 hrc0.1 hrc0.2
      · obtain ⟨rc', hm, heq⟩ := List.mem_map.mp h
        rw [← heq]
        have hlt := hrc_lt rc' (by rw [hrcs]; exact List.mem_cons_of_mem _ hm)
        exact key_max_le rc' hlt.1 hlt.2
    · obtain ⟨i, j, c, hi, hj, hc2, hval⟩ := npMax_attained input hr hc hch
      have hbm : ((block_start B i, block_start B j) : ℕ × ℕ) ∈ rc0 :: rest := by
        rw [← hrcs, hmem_rcs]
        exact ⟨block_start_mem _ _ _ hB hi, block_start_mem _ _ _ hB hj⟩
      have hfold_ge : slice_max input B r (block_start B i, block_start B j) ≤
          (rest.map (slice_max input B r)).foldl max
            (slice_max input B r rc0) := by
        rcases List.mem_cons.mp hbm with heq | hm
        · rw [← heq]
          exact list_foldl_max_init_le _ _
        · exact list_foldl_max_mem_le _ _ _ (List.mem_map.mpr ⟨_, hm, rfl⟩)
      rw [hval]
      exact le_trans (key_max_ge i j c hi hj hc2) hfold_ge
  rw [hminv, hmaxv]
  exact ⟨rfl, rfl⟩

/-- C8: on a fresh build, the stored `image_min`/`image_max` attributes equal
the global minimum and maximum of the raw original raster, in both regimes:
when zero pyramid levels are needed they come from a direct scan of the
raster, and otherwise from the running min/max over the source
block-plus-halo slices read while level 1 is generated (never from filtered
results). -/
theorem c8_builder_stores_global_min_max (s : H5State) (B ds r maxLen : ℕ)
    (w : ℤ → ℚ) (hB : 1 ≤ B) (hr : 0 < s.original.rows)
    (hc : 0 < s.original.cols) (hch : 0 < chan_count s.original)
    (hfresh : s.pyramid_exists = false) :
    (generate_pyramid s B ds r maxLen w false).state.attr_image_min =
      some (npMin s.original) ∧
    (generate_pyramid s B ds r maxLen w false).state.attr_image_max =
      some (npMax s.original) := by
  by_cases hl : levels_needed (shape_max s.original) maxLen ds = 0
  · simp [generate_pyramid, hl]
  · have hone : 1 ≤ levels_needed (shape_max s.original) maxLen ds :=
      Nat.one_le_iff_ne_zero.mpr hl
    have hmm := bftp_image_min_max s.original B ds r w hB hr hc hch
    simp only [generate_pyramid, build_state]
    rw [if_neg (by simpa using hl), if_neg (by simp [hfresh])]
    simp only [Bool.false_eq_true, if_false]
    rw [if_pos hone, if_pos hone]
    exact hmm

/-- A 3x3 raster with `value(row, col) = row + col`. -/
def img_rowcol : Img := ⟨3, 3, none, fun i j _ => (i : ℚ) + (j : ℚ)⟩

def s_rowcol : H5State := ⟨img_rowcol, false, [], none, none, none⟩

theorem c8_builder_stores_global_min_max_witness :
    (1 ≤ 2 ∧ 0 < img_rowcol.rows ∧ 0 < img_rowcol.cols ∧
      0 < chan_count img_rowcol ∧ s_rowcol.pyramid_exists = false) ∧
    ((generate_pyramid s_rowcol 2 2 1 1 w_zero false).state.attr_image_min =
      some (npMin img_rowcol) ∧
    (generate_pyramid s_rowcol 2 2 1 1 w_zero false).state.attr_image_max =
      some (npMax img_rowcol)) ∧
    npMin img_rowcol = 0 ∧ npMax img_rowcol = 4 := by
  refine ⟨⟨by norm_num, by norm_num [img_rowcol], by norm_num [img_rowcol],
    by norm_num [chan_count, img_rowcol], rfl⟩,
    c8_builder_stores_global_min_max s_rowcol 2 2 1 1 w_zero (by norm_num)
      (by norm_num [s_rowcol, img_rowcol]) (by norm_num [s_rowcol, img_rowcol])
      (by norm_num [chan_count, s_rowcol, img_rowcol]) rfl, ?_, ?_⟩
  · show npMin img_rowcol = 0
    norm_num [npMin, img_values, img_rowcol, chan_count, List.range_succ]
  · show npMax img_rowcol = 4
    norm_num [npMax, img_values, img_rowcol, chan_count, List.range_succ]

/-! ### Written extent of the subsampled blocks (C10) -/

theorem nat_foldl_max_le (f : ℕ → ℕ) (l : List ℕ) (bound : ℕ)
    (h : ∀ x ∈ l, f x ≤ bound) :
    ∀ a, a ≤ bound → l.foldl (fun acc x => max acc (f x)) a ≤ bound := by
  induction l with
  | nil => intro a ha; exact ha
  | cons y ys ih =>
    intro a ha
    rw [List.foldl_cons]
    exact ih (fun x hx => h x (List.mem_cons_of_mem y hx)) _
      (max_le ha (h y (List.mem_cons_self y ys)))

theorem nat_foldl_max_ge_init (f : ℕ → ℕ) (l : List ℕ) :
    ∀ a, a ≤ l.foldl (fun acc x => max acc (f x)) a := by
  induction l with
  | nil => intro a; exact le_refl a
  | cons y ys ih =>
    intro a
    rw [List.foldl_cons]
    exact le_trans (le_max_left a (f y)) (ih (max a (f y)))

theorem nat_foldl_max_ge_mem (f : ℕ → ℕ) (l : List ℕ) (x : ℕ) (h : x ∈ l) :
    ∀ a, f x ≤ l.foldl (fun acc x => max acc (f x)) a := by
  induction l with
  | nil => cases h
  | cons y ys ih =>
    intro a
    rw [List.foldl_cons]
    rcases List.mem_cons.mp h with rfl | hmem
    · exact le_trans (le_max_right a (f x)) (nat_foldl_max_ge_init f ys _)
    · exact ih hmem _

/-- The row count of the halo-cropped filtered block written for the block
starting at `row` (the loop's `rval.shape[0]` after cropping). -/
def cropped_rows (M B r row : ℕ) : ℕ :=
  (min (row + B + (halo_high_code r B M row).toNat) M -
    (row - (halo_low r row).toNat)) -
    (halo_high_code r B M row).toNat - (halo_low r row).toNat

theorem cropped_rows_eq (M B r row : ℕ) (h : row < M) :
    cropped_rows M B r row = min B (M - row) := by
  unfold cropped_rows
  rw [halo_low_toNat, halo_high_code_toNat]
  omega

/-- One past the last output row any block writes: the maximum over all
blocks of `row // ds + len(rval[::ds])`. -/
def written_row_extent (M B ds r : ℕ) : ℕ :=
  (block_starts M B).foldl
    (fun acc row => max acc (row / ds + stride_len (cropped_rows M B r row) ds)) 0

/-- For `downsample = 2`, the written rows fill the created `ceil(M/2)`-row
dataset exactly whenever the blocksize is even or the whole axis fits in a
single block. -/
theorem written_row_extent_eq (M B r : ℕ) (hB : 1 ≤ B)
    (hcond : B % 2 = 0 ∨ M ≤ B) :
    written_row_extent M B 2 r = out_rows M := by
  rcases Nat.eq_zero_or_pos M with rfl | hM
  · unfold written_row_extent block_starts out_rows
    have : (0 + B - 1) / B = 0 := by
      rw [Nat.div_eq_zero_iff (by omega)]
      omega
    rw [this]
    simp
  · have heven : ∀ row ∈ block_starts M B, row % 2 = 0 := by
      intro row hm
      obtain ⟨k, hk, rfl⟩ := (mem_block_starts M B row hB).mp hm
      rcases hcond with h | h
      · rw [Nat.mul_mod, h]
        simp
      · have hk0 : k = 0 := by
          by_contra hk0
          have h1 : B ≤ k * B := Nat.le_mul_of_pos_left B (by omega)
          omega
        rw [hk0]
        simp
    unfold written_row_extent
    apply le_antisymm
    · refine nat_foldl_max_le _ _ _ ?_ 0 (Nat.zero_le _)
      intro row hm
      have h0 := heven row hm
      obtain ⟨k, hk, he⟩ := (mem_block_starts M B row hB).mp hm
      have hrowM : row < M := by omega
      rw [cropped_rows_eq M B r row hrowM]
      unfold stride_len out_rows
      split <;> omega
    · have hmem := block_start_mem M B (M - 1) hB (by omega)
      refine le_trans ?_ (nat_foldl_max_ge_mem _ (block_starts M B) _ hmem 0)
      have hb := block_start_bounds B (M - 1) hB
      have h0 := heven _ hmem
      have hrowM : block_start B (M - 1) < M := by omega
      rw [cropped_rows_eq M B r _ hrowM]
      unfold stride_len out_rows
      split <;> omega

/-- A block write touches only output rows `[row // ds, row // ds + k)` and
output columns `[col // ds, col // ds + k')` where `k`, `k'` are the strided
lengths of the halo-cropped block; everything outside keeps its previous
value. -/
theorem bftp_step_writes_at_scaled_offset (input : Img) (B ds r : ℕ)
    (w : ℤ → ℚ) (acc : BftpAcc) (rc : ℕ × ℕ) (i j c : ℕ)
    (h : i < rc.1 / ds ∨
      rc.1 / ds + stride_len (cropped_rows input.rows B r rc.1) ds ≤ i ∨
      j < rc.2 / ds ∨
      rc.2 / ds + stride_len (cropped_rows input.cols B r rc.2) ds ≤ j) :
    (bftp_step input B ds r w acc rc).target.data i j c =
      acc.target.data i j c := by
  simp only [bftp_step, write_region, gaussian_filter_img, bftp_slice]
  split
  · rename_i hcond
    exfalso
    unfold cropped_rows at h
    omega
  · rfl

/-- A 5x1 raster of constant value 7. -/
def img7_5x1 : Img := ⟨5, 1, none, fun _ _ _ => 7⟩

/-- C10 counterexample: with `downsample = 2` but an odd `blocksize = 3` on a
5-row axis, the created dataset has `ceil(5/2) = 3` rows while the subsampled
block writes only reach row 2 (extent 2): on a constant-7 source the built
level holds 7 in row 0 but the created-but-never-written row 2 keeps its
initial 0.  So the claim that the created shape matches the extent of the
subsampled data whenever `downsample = 2` is false. -/
theorem c10_shape_extent_mismatch_odd_blocksize :
    out_rows 5 = 3 ∧
    written_row_extent 5 3 2 1 = 2 ∧
    written_row_extent 5 3 2 1 ≠ out_rows 5 ∧
    (block_filter_to_pyramid img7_5x1 3 2 1 gauss_w_half).target.rows = 3 ∧
    (block_filter_to_pyramid img7_5x1 3 2 1 gauss_w_half).target.data 0 0 0 = 7 ∧
    (block_filter_to_pyramid img7_5x1 3 2 1 gauss_w_half).target.data 2 0 0 = 0 := by
  refine ⟨by decide, by decide, by decide, by decide, ?_, ?_⟩
  · norm_num [block_filter_to_pyramid, bftp_step, write_region, bftp_slice,
      gaussian_filter_img, gaussian_filter, kernel_offsets, stride_len,
      block_starts, List.range_succ, halo_low, halo_high_code, reflect,
      gauss_w_half, img7_5x1, out_rows]
  · norm_num [block_filter_to_pyramid, bftp_step, write_region, bftp_slice,
      gaussian_filter_img, stride_len, block_starts, List.range_succ,
      halo_low, halo_high_code, img7_5x1, out_rows]

/-- C10 amended: `block_filter_to_pyramid` creates the output dataset with
spatial shape `(ceil(M/2), ceil(N/2))` computed with the constant 2 whatever
the `downsample` argument is, while each block's data is subsampled by stride
`downsample` and written at offset `row // downsample` (touching only the
strided extent of the halo-cropped block); for `downsample = 2` the union of
the written row ranges fills the created shape exactly provided the blocksize
is even or the axis fits in one block (and symmetrically for columns) — with
an odd blocksize the last created row/column can remain unwritten. -/
theorem c10_shape_constant_two_and_extent :
    (∀ (input : Img) (B ds r : ℕ) (w : ℤ → ℚ),
      (block_filter_to_pyramid input B ds r w).target.rows = out_rows input.rows ∧
      (block_filter_to_pyramid input B ds r w).target.cols = out_rows input.cols) ∧
    (∀ (input : Img) (B ds r : ℕ) (w : ℤ → ℚ) (acc : BftpAcc) (rc : ℕ × ℕ)
      (i j c : ℕ),
      (i < rc.1 / ds ∨
        rc.1 / ds + stride_len (cropped_rows input.rows B r rc.1) ds ≤ i ∨
        j < rc.2 / ds ∨
        rc.2 / ds + stride_len (cropped_rows input.cols B r rc.2) ds ≤ j) →
      (bftp_step input B ds r w acc rc).target.data i j c =
        acc.target.data i j c) ∧
    (∀ (M B r : ℕ), 1 ≤ B → (B % 2 = 0 ∨ M ≤ B) →
      written_row_extent M B 2 r = out_rows M) := by
  refine ⟨?_, ?_, ?_⟩
  · intro input B ds r w
    exact ⟨(bftp_target_shape input B ds r w).1, (bftp_target_shape input B ds r w).2.1⟩
  · intro input B ds r w acc rc i j c h
    exact bftp_step_writes_at_scaled_offset input B ds r w acc rc i j c h
  · intro M B r hB hcond
    exact written_row_extent_eq M B r hB hcond

theorem c10_shape_constant_two_and_extent_witness :
    ((block_filter_to_pyramid img7_5x1 3 4 1 gauss_w_half).target.rows =
      out_rows 5) ∧
    (1 ≤ 2 ∧ (2 % 2 = 0 ∨ (6 : ℕ) ≤ 2)) ∧
    written_row_extent 6 2 2 1 = out_rows 6 ∧
    ((bftp_step img7_5x1 3 2 1 gauss_w_half
        ⟨⟨3, 1, none, fun _ _ _ => 0⟩, none, none, 0⟩ (3, 0)).target.data 0 0 0 =
      (0 : ℚ)) :=
  ⟨(c10_shape_constant_two_and_extent.1 img7_5x1 3 4 1 gauss_w_half).1,
   ⟨by decide, Or.inl (by decide)⟩,
   c10_shape_constant_two_and_extent.2.2 6 2 1 (by decide) (Or.inl (by decide)),
   c10_shape_constant_two_and_extent.2.1 img7_5x1 3 2 1 gauss_w_half
     ⟨⟨3, 1, none, fun _ _ _ => 0⟩, none, none, 0⟩ (3, 0) 0 0 0
     (Or.inl (by decide))⟩

/-! ### view_widget.py: viewport, tile cache, tone mapping -/

/-- A QRectF given by its four sides (exact rationals standing in for the
qreal floats). -/
structure Rect where
  left : ℚ
  top : ℚ
  right : ℚ
  bottom : ℚ

/-- QRectF(x, y, w, h). -/
def rect_xywh (x y wdt hgt : ℚ) : Rect := ⟨x, y, x + wdt, y + hgt⟩

/-- `mapRectFromScene` of the image item: the item sits at position (0, 0)
(`setPos(0, 0)` in mainwidget) with a pure scale transform (`setScale`), so
scene coordinates map to item coordinates by division by the scale factor. -/
def map_rect_from_scene (scale : ℚ) (rc : Rect) : Rect :=
  ⟨rc.left / scale, rc.top / scale, rc.right / scale, rc.bottom / scale⟩

/-- Python `int()`: truncation toward zero. -/
def int_trunc (q : ℚ) : ℤ := if q < 0 then ⌈q⌉ else ⌊q⌋

/-- The integers `a, a+1, ..., b` (empty when `b < a`), as iterated by
`range(a, b+1)`. -/
def int_range (a b : ℤ) : List ℤ :=
  (List.range (b + 1 - a).toNat).map (fun n : ℕ => a + n)

theorem mem_int_range (a b x : ℤ) : x ∈ int_range a b ↔ a ≤ x ∧ x ≤ b := by
  unfold int_range
  rw [List.mem_map]
  constructor
  · rintro ⟨n, hn, rfl⟩
    rw [List.mem_range] at hn
    omega
  · intro h
    exact ⟨(x - a).toNat, List.mem_range.mpr (by omega), by omega⟩

theorem int_range_nodup (a b : ℤ) : (int_range a b).Nodup := by
  unfold int_range
  exact (List.nodup_range _).map (fun m n h => by omega)

/-- The h5 file as the viewer reads it: the original dataset and the pyramid
level datasets `"1"`, `"2"`, .... -/
structure PyFile where
  original : Img
  pyramid : ℕ → Img

/-- Fields of the image item that the crop logic reads and writes. -/
structure ViewState where
  processing_tile_size : ℕ
  scale : ℚ
  max_zoom : ℕ
  current_zoom_level : ℤ
  cache_keys : List (ℤ × ℤ)
  cache_val : ℤ × ℤ → Img
  current_shadow : ℚ
  current_mid : ℚ
  current_highlight : ℚ
  current_crop : Img

/-- Pyramid level selection of `_calculate_crop` (lines 1133-1146):
`new_zoom_level <= 0` reads the original image; above `max_zoom` reads the
coarsest level (or the original if the pyramid is empty); otherwise the
requested level. -/
def selected_level (f : PyFile) (max_zoom : ℕ) (z : ℤ) : Img :=
  if z ≤ 0 then f.original
  else if z > (max_zoom : ℤ) then
    (if max_zoom = 0 then f.original else f.pyramid max_zoom)
  else f.pyramid z.toNat

/-- Scene-space tile index range of the requested rectangle:
`x_tile_min = max(int(left), 0) // tile_size`, `x_tile_max = int(right) // tile_size`
(and the same for y from top/bottom). -/
def tile_range (ts : ℕ) (rc : Rect) : ℤ × ℤ × ℤ × ℤ :=
  (Int.ediv (max (int_trunc rc.left) 0) ts,
   Int.ediv (int_trunc rc.right) ts,
   Int.ediv (max (int_trunc rc.top) 0) ts,
   Int.ediv (int_trunc rc.bottom) ts)

/-- The `tiles_needed` list built by the double loop
`for x in range(x_tile_min, x_tile_max+1): for y in ...: append((x, y))`. -/
def tiles_needed_list (ts : ℕ) (rc : Rect) : List (ℤ × ℤ) :=
  (int_range (tile_range ts rc).1 (tile_range ts rc).2.1).product
    (int_range (tile_range ts rc).2.2.1 (tile_range ts rc).2.2.2)

/-- Item-space bounds of the tile-aligned region, clipped to the selected
level's extent (`x_min_item`, `x_max_item`, `y_min_item`, `y_max_item`). -/
def crop_item_bounds (ts : ℕ) (scale : ℚ) (lvl : Img) (rc : Rect) :
    ℤ × ℤ × ℤ × ℤ :=
  let tr := tile_range ts rc
  let item := map_rect_from_scene scale
    (rect_xywh ((tr.1 * ts : ℤ) : ℚ) ((tr.2.2.1 * ts : ℤ) : ℚ)
      (((tr.2.1 - tr.1 + 1) * ts : ℤ) : ℚ) (((tr.2.2.2 - tr.2.2.1 + 1) * ts : ℤ) : ℚ))
  (max (int_trunc item.left) 0, min (int_trunc item.right) (lvl.cols : ℤ),
   max (int_trunc item.top) 0, min (int_trunc item.bottom) (lvl.rows : ℤ))

/-- Negation of the early `return None` test: the viewport's tile region
intersects the raster. -/
def crop_in_bounds (ts : ℕ) (scale : ℚ) (lvl : Img) (rc : Rect) : Prop :=
  (crop_item_bounds ts scale lvl rc).1 < (crop_item_bounds ts scale lvl rc).2.1 ∧
  (crop_item_bounds ts scale lvl rc).2.2.1 < (crop_item_bounds ts scale lvl rc).2.2.2

instance (ts : ℕ) (scale : ℚ) (lvl : Img) (rc : Rect) :
    Decidable (crop_in_bounds ts scale lvl rc) := by
  unfold crop_in_bounds
  infer_instance

/-- Vertical stitch (`numpy.concatenate(..., axis=0)`). -/
def v_lookup : List Img → ℕ → ℕ → ℕ → ℚ
  | [], _, _, _ => 0
  | im :: rest, i, j, c =>
    if i < im.rows then im.data i j c else v_lookup rest (i - im.rows) j c

def concat_v (l : List Img) : Img :=
  ⟨(l.map Img.rows).sum, ((l.head?).map Img.cols).getD 0,
   (((l.head?).map Img.channels).getD none), fun i j c => v_lookup l i j c⟩

/-- Horizontal stitch (`numpy.concatenate(..., axis=1)`). -/
def h_lookup : List Img → ℕ → ℕ → ℕ → ℚ
  | [], _, _, _ => 0
  | im :: rest, i, j, c =>
    if j < im.cols then im.data i j c else h_lookup rest i (j - im.cols) c

def concat_h (l : List Img) : Img :=
  ⟨((l.head?).map Img.rows).getD 0, (l.map Img.cols).sum,
   (((l.head?).map Img.channels).getD none), fun i j c => h_lookup l i j c⟩

/-- Reading one processing tile from the level dataset
(`_collect_processing_tiles` else-branch): the tile's scene rectangle mapped
to item coordinates, skipped entirely (`continue`) if it starts past the
raster, else clipped to the raster bounds and sliced. -/
def fetch_tile (lvl : Img) (ts : ℕ) (scale : ℚ) (x y : ℤ) : Option Img :=
  let cc := map_rect_from_scene scale
    (rect_xywh ((ts : ℚ) * (x : ℚ)) ((ts : ℚ) * (y : ℚ)) (ts : ℚ) (ts : ℚ))
  if cc.top > (lvl.rows : ℚ) ∨ cc.left > (lvl.cols : ℚ) then none
  else
    let xlim := min cc.right (lvl.cols : ℚ)
    let ylim := min cc.bottom (lvl.rows : ℚ)
    some ⟨(int_trunc ylim - int_trunc cc.top).toNat,
          (int_trunc xlim - int_trunc cc.left).toNat,
          lvl.channels,
          fun a b c =>
            lvl.data ((int_trunc cc.top).toNat + a) ((int_trunc cc.left).toNat + b) c⟩

/-- `_collect_processing_tiles`: for each needed tile key, pop it from the
cache if present, otherwise fetch it from the level raster (skipping tiles
beyond the raster); per x-column the tiles are concatenated along axis 0,
empty columns are dropped, and the columns are concatenated along axis 1.
Returns the stitched crop and the new crop list (the tiles kept, in
iteration order). -/
def collect_processing_tiles (lvl : Img) (ts : ℕ) (scale : ℚ)
    (cache_keys : List (ℤ × ℤ)) (cache_val : ℤ × ℤ → Img)
    (xtmin xtmax ytmin ytmax : ℤ) : Img × List ((ℤ × ℤ) × Img) :=
  let colFor : ℤ → List ((ℤ × ℤ) × Img) := fun x =>
    (int_range ytmin ytmax).filterMap (fun y =>
      if (x, y) ∈ cache_keys then some ((x, y), cache_val (x, y))
      else
        match fetch_tile lvl ts scale x y with
        | some t => some ((x, y), t)
        | none => none)
  let x_arrays := (int_range xtmin xtmax).filterMap (fun x =>
    let ct := colFor x
    if ct.isEmpty then none else some (concat_v (ct.map Prod.snd)))
  (concat_h x_arrays, (int_range xtmin xtmax).flatMap colFor)

/-- `_calculate_auto_image_levels`: shadow/highlight are the crop's min/max;
mid is `int((highlight - shadow)/2) + shadow`, clamped into
`[shadow, highlight]`. -/
def calculate_auto_image_levels (im : Img) : ℚ × ℚ × ℚ :=
  let shadow := npMin im
  let highlight := npMax im
  let mid : ℚ := ((int_trunc ((highlight - shadow) / 2)) : ℚ) + shadow
  let mid := if mid < shadow then shadow else if mid > highlight then highlight else mid
  (shadow, mid, highlight)

/-- Pointwise map over an array. -/
def map_img (g : ℚ → ℚ) (im : Img) : Img :=
  ⟨im.rows, im.cols, im.channels, fun i j c => g (im.data i j c)⟩

/-- The gamma exponent computation of `_gamma_correct` (`image_mid = 0.5`;
9.99 and 0.01 caps). -/
def gamma_value (mid : ℚ) : ℚ :=
  if mid < 1 / 2 then
    (let mid_normal := mid * 2
     let gamma := 1 + 9 * (1 - mid_normal)
     if gamma > 999 / 100 then 999 / 100 else gamma)
  else if mid > 1 / 2 then
    (let mid_normal := mid * 2 - 1
     let gamma := 1 - mid_normal
     if gamma < 1 / 100 then 1 / 100 else gamma)
  else 1

/-- `_gamma_correct`: shadow/highlight windowing with clipping into [0, 1],
then `image ** (1/gamma)` unless `mid == 0.5`.  The real-exponent power on
floats is abstracted as the parameter `rpow` (theorems hold for every
`rpow`). -/
def gamma_correct (rpow : ℚ → ℚ → ℚ) (im : Img) (shadow mid highlight : ℚ) :
    Img :=
  let gamma := gamma_value mid
  let gamma_correct_exp := 1 / gamma
  let clipped := map_img (fun v =>
    let x := (v - shadow) / (highlight - shadow)
    let x := if x < 0 then 0 else x
    if x > 1 then 1 else x) im
  if mid ≠ 1 / 2 then map_img (fun v => rpow v gamma_correct_exp) clipped
  else clipped

/-- `_rescale_to_8_bit` with the default `mx = None, mn = None`: rescale by
the image's own min/max (sentinel `(mn, mx) = (0, 255)` when they coincide),
clip to [0, 255] and cast to uint8 (truncation; the clipped values are
non-negative so this is the floor). -/
def rescale_to_8_bit (im : Img) : Img :=
  let mx0 := npMax im
  let mn0 := npMin im
  let mx := if mx0 = mn0 then (255 : ℚ) else mx0
  let mn := if mx0 = mn0 then (0 : ℚ) else mn0
  let diff := mx - mn
  let m := 255 / diff
  let b := 255 * mn / diff * (-1)
  map_img (fun v =>
    let y := v * m + b
    let y := if y > 255 then 255 else y
    let y := if y < 0 then 0 else y
    ((⌊y⌋ : ℤ) : ℚ)) im

/-- `_get_pad`: zero columns appended to align a greyscale image's width to
a multiple of 4. -/
def get_pad_cols (im : Img) : ℕ :=
  if im.cols % 4 > 0 then 4 - im.cols % 4 else 0

def pad_image (im : Img) : Img :=
  ⟨im.rows, im.cols + get_pad_cols im, im.channels,
   fun i j c => if j < im.cols then im.data i j c else 0⟩

/-- `_compute_new_image_levels` (output value; the method also refreshes the
`current_*` tone fields, which is irrelevant to the returned array): if the
crop has any contrast, normalise, gamma-correct, rescale to 8 bit and pad
(greyscale only); a zero-contrast crop is returned unchanged (as its float
cast). -/
def compute_new_image_levels (rpow : ℚ → ℚ → ℚ) (im : Img)
    (shadow mid highlight : ℚ) : Img :=
  let image_max := npMax im
  let image_min := npMin im
  if image_max - image_min ≠ 0 then
    let im1 := map_img (fun v => (v - image_min) / (image_max - image_min)) im
    let sh := (shadow - image_min) / (image_max - image_min)
    let md := (mid - image_min) / (image_max - image_min)
    let hl := (highlight - image_min) / (image_max - image_min)
    let im2 := gamma_correct rpow im1 sh md hl
    let im3 := rescale_to_8_bit im2
    if im.channels = none then pad_image im3 else im3
  else im

inductive CropKind where
  | no_crop
  | reused
  | recomputed
deriving DecidableEq

/-- Result of one `_calculate_crop` call: which branch ran, the returned
crop, and the crop list (tile cache) afterwards. -/
structure CropResult where
  kind : CropKind
  crop : Option Img
  cache_keys : List (ℤ × ℤ)
  cache_val : ℤ × ℤ → Img

/-- `_calculate_crop` (lines 1133-1215).  Branch order as in the code:
select the pyramid level from the zoom; compute the needed tile range and
the item-space bounds; detect changed tiles (`new_tiles`) and changed tone
levels (`new_image_levels`); return None when the region misses the raster;
recompute (collect tiles, optionally auto-set the levels from the viewport
window, then tone-map) when tiles or levels changed or `autoset_levels` is
set; otherwise return the previous crop unchanged. -/
def calculate_crop (rpow : ℚ → ℚ → ℚ) (f : PyFile) (st : ViewState)
    (rc : Rect) (z : ℤ) (shadow mid highlight : ℚ) (autoset_levels : Bool) :
    CropResult :=
  let lvl := selected_level f st.max_zoom z
  let ts := st.processing_tile_size
  let tr := tile_range ts rc
  let needed := tiles_needed_list ts rc
  let new_tiles : Bool :=
    needed.any (fun t => decide (t ∉ st.cache_keys)) ||
      decide (st.cache_keys.length ≠ needed.length)
  let new_image_levels : Bool :=
    decide (shadow ≠ st.current_shadow ∨ mid ≠ st.current_mid ∨
      highlight ≠ st.current_highlight)
  if ¬ crop_in_bounds ts st.scale lvl rc then
    ⟨CropKind.no_crop, none, st.cache_keys, st.cache_val⟩
  else if new_tiles || new_image_levels || autoset_levels then
    let collected := collect_processing_tiles lvl ts st.scale st.cache_keys
      st.cache_val tr.1 tr.2.1 tr.2.2.1 tr.2.2.2
    let smh :=
      if autoset_levels then
        let wrect := map_rect_from_scene st.scale rc
        let window_crop : Img :=
          ⟨(int_trunc wrect.bottom - int_trunc wrect.top).toNat,
           (int_trunc wrect.right - int_trunc wrect.left).toNat,
           lvl.channels,
           fun a b c =>
             lvl.data ((int_trunc wrect.top).toNat + a)
               ((int_trunc wrect.left).toNat + b) c⟩
        calculate_auto_image_levels window_crop
      else (shadow, mid, highlight)
    ⟨CropKind.recomputed,
     some (compute_new_image_levels rpow collected.1 smh.1 smh.2.1 smh.2.2),
     collected.2.map Prod.fst,
     fun key => ((collected.2.find? (fun p => p.1 = key)).map Prod.snd).getD
       (st.cache_val key)⟩
  else
    ⟨CropKind.reused, some st.current_crop, st.cache_keys, st.cache_val⟩

/-- The zoom-level handling of `update_image_window` (lines 1012-1027): when
a new zoom level is given, the item is rescaled and the tile cache cleared
only if `0 <= new_zoom_level <= max_zoom` and `max_zoom != 0`; the current
zoom level is always updated.  Returns the updated state and the effective
zoom level used for the rest of the call. -/
def update_image_window_zoom_step (st : ViewState) (new_zoom_level : Option ℤ)
    (zoom_factor : ℚ) : ViewState × ℤ :=
  match new_zoom_level with
  | none => (st, st.current_zoom_level)
  | some z =>
    if 0 ≤ z ∧ z ≤ (st.max_zoom : ℤ) ∧ st.max_zoom ≠ 0 then
      ({st with
          scale := if z ≠ 0 then zoom_factor ^ z.natAbs else 1,
          cache_keys := [],
          current_zoom_level := z}, z)
    else
      ({st with current_zoom_level := z}, z)

/-- C4 amended: a zero-contrast (constant) crop is returned unchanged by the
tone-mapping step — not rescaled, not padded, and in particular NOT zeroed —
whatever the shadow/mid/highlight arguments and the float power function
are. -/
theorem c4_constant_crop_returned_unchanged (rpow : ℚ → ℚ → ℚ) (im : Img)
    (shadow mid highlight : ℚ) (h : npMax im = npMin im) :
    compute_new_image_levels rpow im shadow mid highlight = im := by
  unfold compute_new_image_levels
  rw [if_neg]
  intro hq
  exact hq (by rw [h]; ring)

/-- A 1x1 raster of constant value 7. -/
def img7_1x1 : Img := ⟨1, 1, none, fun _ _ _ => 7⟩

def rpow_id : ℚ → ℚ → ℚ := fun x _ => x

/-- C4 counterexample: on the constant crop of value 7 the tone-mapping step
returns the value 7, not the all-zero array the claim requires. -/
theorem c4_constant_crop_not_zeroed :
    (compute_new_image_levels rpow_id img7_1x1 0 1 2).data 0 0 0 = 7 ∧
    (compute_new_image_levels rpow_id img7_1x1 0 1 2).data 0 0 0 ≠ 0 := by
  have h : (compute_new_image_levels rpow_id img7_1x1 0 1 2).data 0 0 0 = 7 := by
    norm_num [compute_new_image_levels, npMax, npMin, img_values, img7_1x1,
      chan_count, List.range_succ]
  exact ⟨h, by rw [h]; norm_num⟩

theorem c4_constant_crop_returned_unchanged_witness :
    npMax img7_1x1 = npMin img7_1x1 ∧
    compute_new_image_levels rpow_id img7_1x1 0 1 2 = img7_1x1 :=
  ⟨by norm_num [npMax, npMin, img_values, img7_1x1, chan_count, List.range_succ],
   c4_constant_crop_returned_unchanged rpow_id img7_1x1 0 1 2
     (by norm_num [npMax, npMin, img_values, img7_1x1, chan_count,
       List.range_succ])⟩

/-- C7 amended: on a zoom request, `update_image_window` empties the tile
cache exactly when the new zoom level is inside `[0, max_zoom]` and
`max_zoom != 0` (whether or not it differs from the current zoom); for
values below 0, above `max_zoom`, or on a pyramid with `max_zoom = 0`, the
cache is retained even though the current zoom level changes. -/
theorem c7_cache_cleared_only_in_range :
    (∀ (st : ViewState) (z : ℤ) (zf : ℚ),
      0 ≤ z ∧ z ≤ (st.max_zoom : ℤ) ∧ st.max_zoom ≠ 0 →
      (update_image_window_zoom_step st (some z) zf).1.cache_keys = [] ∧
      (update_image_window_zoom_step st (some z) zf).1.current_zoom_level = z) ∧
    (∀ (st : ViewState) (z : ℤ) (zf : ℚ),
      ¬(0 ≤ z ∧ z ≤ (st.max_zoom : ℤ) ∧ st.max_zoom ≠ 0) →
      (update_image_window_zoom_step st (some z) zf).1.cache_keys =
        st.cache_keys ∧
      (update_image_window_zoom_step st (some z) zf).1.current_zoom_level = z) ∧
    (∀ (st : ViewState) (zf : ℚ),
      (update_image_window_zoom_step st none zf).1 = st) := by
  refine ⟨?_, ?_, ?_⟩
  · intro st z zf h
    simp [update_image_window_zoom_step, h]
  · intro st z zf h
    simp [update_image_window_zoom_step, h]
  · intro st zf
    rfl

/-- Tile cache state used in the zoom counterexample: pyramid with
`max_zoom = 3`, current zoom 0, one cached tile. -/
def st_view : ViewState :=
  ⟨512, 1, 3, 0, [(0, 0)], fun _ => img7_1x1, 100, 150, 200, img7_1x1⟩

/-- Same state on a pyramid with `max_zoom = 0`. -/
def st_view0 : ViewState :=
  ⟨512, 1, 0, 0, [(0, 0)], fun _ => img7_1x1, 100, 150, 200, img7_1x1⟩

/-- C7 counterexample: a zoom change to -1 (below 0), to 4 (above
`max_zoom = 3`), or to 1 on a pyramid with `max_zoom = 0` — each a new zoom
level different from the current one — does NOT empty the tile cache. -/
theorem c7_out_of_range_zoom_keeps_cache :
    ((-1 : ℤ) ≠ st_view.current_zoom_level ∧
      (update_image_window_zoom_step st_view (some (-1)) 2).1.cache_keys =
        [(0, 0)] ∧
      (update_image_window_zoom_step st_view (some (-1)) 2).1.current_zoom_level
        = -1) ∧
    ((4 : ℤ) ≠ st_view.current_zoom_level ∧
      (update_image_window_zoom_step st_view (some 4) 2).1.cache_keys ≠ []) ∧
    ((1 : ℤ) ≠ st_view0.current_zoom_level ∧ st_view0.max_zoom = 0 ∧
      (update_image_window_zoom_step st_view0 (some 1) 2).1.cache_keys ≠ []) := by
  refine ⟨⟨by decide, ?_, ?_⟩, ⟨by decide, ?_⟩, ⟨by decide, rfl, ?_⟩⟩ <;>
    simp [update_image_window_zoom_step, st_view, st_view0]

theorem c7_cache_cleared_only_in_range_witness :
    ((0 : ℤ) ≤ 2 ∧ (2 : ℤ) ≤ (st_view.max_zoom : ℤ) ∧ st_view.max_zoom ≠ 0) ∧
    (update_image_window_zoom_step st_view (some 2) 2).1.cache_keys = [] ∧
    ¬((0 : ℤ) ≤ -1 ∧ (-1 : ℤ) ≤ (st_view.max_zoom : ℤ) ∧ st_view.max_zoom ≠ 0) ∧
    (update_image_window_zoom_step st_view (some (-1)) 2).1.cache_keys =
      st_view.cache_keys :=
  ⟨by decide,
   (c7_cache_cleared_only_in_range.1 st_view 2 2 (by decide)).1,
   by decide,
   (c7_cache_cleared_only_in_range.2.1 st_view (-1) 2 (by decide)).1⟩

/-- C9: level selection of the crop calculation.  `z <= 0` reads the
original raster; `0 < z <= max_zoom` reads level `z`; `z > max_zoom` reads
level `max_zoom` (the original if `max_zoom = 0`); and since the zoom enters
`_calculate_crop` only through this selection, requesting level -500 yields
exactly the same result as level 0, and level 10000 the same as level 3 on a
pyramid with `max_zoom = 3`, for every state and viewport. -/
theorem c9_zoom_clamp :
    (∀ (f : PyFile) (mz : ℕ) (z : ℤ), z ≤ 0 →
      selected_level f mz z = f.original) ∧
    (∀ (f : PyFile) (mz : ℕ) (z : ℤ), 0 < z → z ≤ (mz : ℤ) →
      selected_level f mz z = f.pyramid z.toNat) ∧
    (∀ (f : PyFile) (mz : ℕ) (z : ℤ), (mz : ℤ) < z →
      selected_level f mz z =
        if mz = 0 then f.original else f.pyramid mz) ∧
    (∀ (rpow : ℚ → ℚ → ℚ) (f : PyFile) (st : ViewState) (rc : Rect)
      (s m h : ℚ) (a : Bool),
      calculate_crop rpow f st rc (-500) s m h a =
        calculate_crop rpow f st rc 0 s m h a) ∧
    (∀ (rpow : ℚ → ℚ → ℚ) (f : PyFile) (st : ViewState) (rc : Rect)
      (s m h : ℚ) (a : Bool), st.max_zoom = 3 →
      calculate_crop rpow f st rc 10000 s m h a =
        calculate_crop rpow f st rc 3 s m h a) := by
  have h1 : ∀ (f : PyFile) (mz : ℕ) (z : ℤ), z ≤ 0 →
      selected_level f mz z = f.original := by
    intro f mz z h
    unfold selected_level
    rw [if_pos h]
  refine ⟨h1, ?_, ?_, ?_, ?_⟩
  · intro f mz z h0 hmz
    unfold selected_level
    rw [if_neg (by omega), if_neg (by omega)]
  · intro f mz z h
    unfold selected_level
    rw [if_neg (by omega), if_pos (by omega)]
  · intro rpow f st rc s m h a
    have hsel : selected_level f st.max_zoom (-500) =
        selected_level f st.max_zoom 0 := by
      rw [h1 f st.max_zoom (-500) (by omega), h1 f st.max_zoom 0 (by omega)]
    unfold calculate_crop
    rw [hsel]
  · intro rpow f st rc s m h a hmz
    have hsel : selected_level f st.max_zoom 10000 =
        selected_level f st.max_zoom 3 := by
      rw [hmz]
      unfold selected_level
      norm_num
      rfl
    unfold calculate_crop
    rw [hsel]

theorem tiles_needed_list_nodup (ts : ℕ) (rc : Rect) :
    (tiles_needed_list ts rc).Nodup := by
  unfold tiles_needed_list
  exact (int_range_nodup _ _).product (int_range_nodup _ _)

/-- The loop's `new_tiles` flag is false exactly when the needed tile-key
set coincides with the cached key set (both key lists being duplicate-free:
`tiles_needed` by construction, the dict keys by nature). -/
theorem new_tiles_false_iff (needed cache : List (ℤ × ℤ))
    (hn : needed.Nodup) (hc : cache.Nodup) :
    (needed.any (fun t => decide (t ∉ cache)) ||
      decide (cache.length ≠ needed.length)) = false ↔
    needed.toFinset = cache.toFinset := by
  rw [Bool.or_eq_false_iff]
  constructor
  · rintro ⟨h1, h2⟩
    have hsub : ∀ t ∈ needed, t ∈ cache := by
      intro t ht
      have := List.any_eq_false.mp h1 t ht
      simp only [decide_eq_true_eq] at this
      exact not_not.mp this
    have hlen : cache.length = needed.length := by
      have := decide_eq_false_iff_not.mp h2
      omega
    apply Finset.eq_of_subset_of_card_le
    · intro t ht
      exact List.mem_toFinset.mpr (hsub t (List.mem_toFinset.mp ht))
    · rw [List.toFinset_card_of_nodup hn, List.toFinset_card_of_nodup hc]
      omega
  · intro h
    refine ⟨List.any_eq_false.mpr ?_, ?_⟩
    · intro t ht
      simp only [decide_eq_true_eq, not_not]
      rw [← List.mem_toFinset, ← h]
      exact List.mem_toFinset.mpr ht
    · rw [decide_eq_false_iff_not]
      intro hne
      apply hne
      rw [← List.toFinset_card_of_nodup hn, ← List.toFinset_card_of_nodup hc, h]

/-- C3 amended: for a request whose tile region intersects the raster and
that does not ask for auto-set levels, the recompute is skipped and the
previous crop returned unchanged (tile cache untouched) if and only if the
needed tile-key set equals the cached key set and none of shadow/mid/
highlight differs from the current values. -/
theorem c3_recompute_skip_iff (rpow : ℚ → ℚ → ℚ) (f : PyFile)
    (st : ViewState) (rc : Rect) (z : ℤ) (shadow mid highlight : ℚ)
    (hnd : st.cache_keys.Nodup)
    (hb : crop_in_bounds st.processing_tile_size st.scale
      (selected_level f st.max_zoom z) rc) :
    ((calculate_crop rpow f st rc z shadow mid highlight false).kind =
        CropKind.reused ↔
      ((tiles_needed_list st.processing_tile_size rc).toFinset =
          st.cache_keys.toFinset ∧
        shadow = st.current_shadow ∧ mid = st.current_mid ∧
        highlight = st.current_highlight)) ∧
    ((calculate_crop rpow f st rc z shadow mid highlight false).kind =
        CropKind.reused →
      calculate_crop rpow f st rc z shadow mid highlight false =
        ⟨CropKind.reused, some st.current_crop, st.cache_keys, st.cache_val⟩) := by
  have hn := tiles_needed_list_nodup st.processing_tile_size rc
  have hkey := new_tiles_false_iff (tiles_needed_list st.processing_tile_size rc)
    st.cache_keys hn hnd
  have htones : (decide (shadow ≠ st.current_shadow ∨ mid ≠ st.current_mid ∨
      highlight ≠ st.current_highlight)) = false ↔
      (shadow = st.current_shadow ∧ mid = st.current_mid ∧
        highlight = st.current_highlight) := by
    rw [decide_eq_false_iff_not]
    push_neg
    rfl
  simp only [calculate_crop, Bool.or_false]
  rw [if_neg (not_not_intro hb)]
  by_cases hcond : (((tiles_needed_list st.processing_tile_size rc).any
      (fun t => decide (t ∉ st.cache_keys)) ||
      decide (st.cache_keys.length ≠
        (tiles_needed_list st.processing_tile_size rc).length)) ||
      decide (shadow ≠ st.current_shadow ∨ mid ≠ st.current_mid ∨
        highlight ≠ st.current_highlight)) = true
  · rw [if_pos hcond]
    constructor
    · constructor
      · intro habs
        cases habs
      · rintro ⟨hset, htq⟩
        exfalso
        rcases Bool.or_eq_true_iff.mp hcond with h | h
        · rw [hkey.mpr hset] at h
          cases h
        · rw [htones.mpr htq] at h
          cases h
    · intro habs
      cases habs
  · have hconf : (((tiles_needed_list st.processing_tile_size rc).any
        (fun t => decide (t ∉ st.cache_keys)) ||
        decide (st.cache_keys.length ≠
          (tiles_needed_list st.processing_tile_size rc).length)) ||
        decide (shadow ≠ st.current_shadow ∨ mid ≠ st.current_mid ∨
          highlight ≠ st.current_highlight)) = false :=
      Bool.eq_false_iff.mpr hcond
    rw [if_neg hcond]
    obtain ⟨hA, hB⟩ := Bool.or_eq_false_iff.mp hconf
    exact ⟨by simp [hkey.mp hA, htones.mp hB], fun _ => rfl⟩

def img_1000 : Img := ⟨1000, 1000, none, fun _ _ _ => 0⟩

def f_test : PyFile := ⟨img_1000, fun _ => img_5x4⟩

def rc_small : Rect := ⟨0, 0, 100, 100⟩

/-- Viewer state whose cache holds exactly the tile set needed for
`rc_small`, with tone values 100/150/200. -/
def st_c3 : ViewState :=
  ⟨512, 1, 3, 0, [(0, 0)], fun _ => img7_1x1, 100, 150, 200, img7_1x1⟩

/-- Viewer state whose cache holds exactly the tile set needed for
`rc_out` (whose tile region lies beyond the 1000-column raster). -/
def st_c3b : ViewState :=
  ⟨512, 1, 3, 0, [(3, 0), (4, 0)], fun _ => img7_1x1, 100, 150, 200, img7_1x1⟩

def rc_out : Rect := ⟨2000, 0, 2100, 100⟩

/-- C3 counterexample: the claimed "if and only if" fails as stated.
(a) With the needed tile-key set exactly cached and shadow/mid/highlight all
equal to the current values, a request with `autoset_levels = True` still
recomputes the crop; (b) with the needed tile-key set exactly cached and no
tone change, a request whose tile region misses the raster returns None
rather than the previous crop. -/
theorem c3_skip_iff_counterexample :
    ((tiles_needed_list st_c3.processing_tile_size rc_small).toFinset =
        st_c3.cache_keys.toFinset ∧
      (100 : ℚ) = st_c3.current_shadow ∧ (150 : ℚ) = st_c3.current_mid ∧
      (200 : ℚ) = st_c3.current_highlight ∧
      (calculate_crop rpow_id f_test st_c3 rc_small 0 100 150 200 true).kind =
        CropKind.recomputed) ∧
    ((tiles_needed_list st_c3b.processing_tile_size rc_out).toFinset =
        st_c3b.cache_keys.toFinset ∧
      (calculate_crop rpow_id f_test st_c3b rc_out 0 100 150 200 false).kind =
        CropKind.no_crop) := by
  have ht1 : tiles_needed_list 512 rc_small = [(0, 0)] := by
    norm_num [tiles_needed_list, tile_range, int_trunc, rc_small, int_range,
      List.product, List.range_succ, Function.comp]
  have ht2 : tiles_needed_list 512 rc_out = [(3, 0), (4, 0)] := by
    norm_num [tiles_needed_list, tile_range, int_trunc, rc_out, int_range,
      List.product, List.range_succ, Function.comp,
      show Int.toNat 2 = 2 from rfl]
  refine ⟨⟨?_, rfl, rfl, rfl, ?_⟩, ⟨?_, ?_⟩⟩
  · rw [show st_c3.processing_tile_size = 512 from rfl, ht1]
    rfl
  · norm_num [calculate_crop, crop_in_bounds, crop_item_bounds, tile_range,
      int_trunc, rc_small, map_rect_from_scene, rect_xywh, selected_level,
      f_test, img_1000, st_c3]
  · rw [show st_c3b.processing_tile_size = 512 from rfl, ht2]
    rfl
  · norm_num [calculate_crop, crop_in_bounds, crop_item_bounds, tile_range,
      int_trunc, rc_out, map_rect_from_scene, rect_xywh, selected_level,
      f_test, img_1000, st_c3b]

theorem c3_recompute_skip_iff_witness :
    st_c3.cache_keys.Nodup ∧
    crop_in_bounds st_c3.processing_tile_size st_c3.scale
      (selected_level f_test st_c3.max_zoom 0) rc_small ∧
    ((calculate_crop rpow_id f_test st_c3 rc_small 0 100 150 200 false).kind =
        CropKind.reused ↔
      ((tiles_needed_list st_c3.processing_tile_size rc_small).toFinset =
          st_c3.cache_keys.toFinset ∧
        (100 : ℚ) = st_c3.current_shadow ∧ (150 : ℚ) = st_c3.current_mid ∧
        (200 : ℚ) = st_c3.current_highlight)) :=
  ⟨by decide,
   by norm_num [crop_in_bounds, crop_item_bounds, tile_range, int_trunc,
     rc_small, map_rect_from_scene, rect_xywh, selected_level, f_test,
     img_1000, st_c3],
   (c3_recompute_skip_iff rpow_id f_test st_c3 rc_small 0 100 150 200
     (by decide)
     (by norm_num [crop_in_bounds, crop_item_bounds, tile_range, int_trunc,
       rc_small, map_rect_from_scene, rect_xywh, selected_level, f_test,
       img_1000, st_c3])).1⟩

theorem c9_zoom_clamp_witness :
    ((-5 : ℤ) ≤ 0 ∧ selected_level f_test 3 (-5) = f_test.original) ∧
    ((0 : ℤ) < 2 ∧ (2 : ℤ) ≤ ((3 : ℕ) : ℤ) ∧
      selected_level f_test 3 2 = f_test.pyramid (2 : ℤ).toNat) ∧
    (((3 : ℕ) : ℤ) < 10000 ∧
      selected_level f_test 3 10000 =
        if (3 : ℕ) = 0 then f_test.original else f_test.pyramid 3) ∧
    (st_view.max_zoom = 3 ∧
      calculate_crop rpow_id f_test st_view rc_small 10000 100 150 200 false =
        calculate_crop rpow_id f_test st_view rc_small 3 100 150 200 false) :=
  ⟨⟨by decide, c9_zoom_clamp.1 f_test 3 (-5) (by decide)⟩,
   ⟨by decide, by decide, c9_zoom_clamp.2.1 f_test 3 2 (by decide) (by decide)⟩,
   ⟨by decide, c9_zoom_clamp.2.2.1 f_test 3 10000 (by decide)⟩,
   ⟨rfl, c9_zoom_clamp.2.2.2.2 rpow_id f_test st_view rc_small 100 150 200
     false rfl⟩⟩

end SILT
